import Mathlib

/-!
Verification of the core fraud-detection analytics engine (money-muling
detection over directed, timestamped transactions).

Shallow embedding conventions:
* a transaction row carries sender, receiver, amount and timestamp;
  timestamps are integers counting seconds (the source's `datetime` values;
  `timedelta(hours=h)` is `3600*h` seconds);
* monetary amounts and scores are rationals (the source uses Python floats;
  the algorithms only add, multiply by small rational constants, divide and
  compare, so exact rational arithmetic is the idealised semantics);
* Python dicts keyed by account id are association lists with unique keys;
  `defaultdict` access that materialises a default entry is modelled by
  `mapUpd`, which appends a default entry when the key is absent;
* Python sets are modelled by deduplicated lists; only membership and
  cardinality of these sets are ever consumed downstream, so the particular
  order of a deduplicated list is irrelevant;
* Python's stable `sort` / `sort_values` is modelled by `List.insertionSort`,
  which is also stable;
* the wall-clock cut-off in cycle enumeration is modelled by running the
  enumerator on an arbitrary prefix of the cycle stream.
-/

/-- A validated transaction record (columns of the input CSV after
validation: `transaction_id, sender_id, receiver_id, amount, timestamp`). -/
structure Txn where
  txn_id : String
  sender_id : String
  receiver_id : String
  amount : ℚ
  ts : ℤ
deriving Repr, DecidableEq

/-- `df.sort_values('timestamp')`: stable sort of the transaction list by
timestamp (`FraudDetectionEngine._precompute_metrics`). -/
def dfSorted (txns : List Txn) : List Txn :=
  List.insertionSort (fun a b => a.ts ≤ b.ts) txns

/-- Node list of the transaction graph: all senders then all receivers,
deduplicated (`TransactionGraph.build_from_dataframe`).  Order of this list
only determines iteration order, never values. -/
def nodesOf (txns : List Txn) : List String :=
  (txns.map Txn.sender_id ++ txns.map Txn.receiver_id).dedup

/-- Edge set of the directed graph: one edge per distinct (sender, receiver)
pair (`nx.DiGraph` collapses parallel transactions into one edge). -/
def edgesOf (txns : List Txn) : List (String × String) :=
  (txns.map (fun t => (t.sender_id, t.receiver_id))).dedup

/-- `graph.in_degree(v)`: number of distinct predecessors of `v`. -/
def inDegree (txns : List Txn) (v : String) : ℕ :=
  ((edgesOf txns).filter (fun e => e.2 = v)).length

/-- `graph.out_degree(v)`: number of distinct successors of `v`. -/
def outDegree (txns : List Txn) (v : String) : ℕ :=
  ((edgesOf txns).filter (fun e => e.1 = v)).length

/-- `self.total_degree[v] = in_degree(v) + out_degree(v)`. -/
def totalDegree (txns : List Txn) (v : String) : ℕ :=
  inDegree txns v + outDegree txns v

/-- `graph.successors(v)`: distinct successors of `v`. -/
def successors (txns : List Txn) (v : String) : List String :=
  (((txns.filter (fun t => t.sender_id = v)).map Txn.receiver_id)).dedup

/- ### Cycle enumeration (`FraudDetectionEngine.detect_cycles`) -/

/-- `MAX_CYCLES_LIMIT` from `detection.py`. -/
def MAX_CYCLES_LIMIT : ℕ := 500

/-- An elementary (simple) cycle of the edge set `es`: a non-empty sequence
of pairwise distinct nodes in which each node has an edge to the next, and
the last has an edge back to the first.  This is the contract of
`networkx.simple_cycles`, whose output stream `detect_cycles` consumes. -/
def IsElemCycle (es : List (String × String)) (c : List String) : Prop :=
  c ≠ [] ∧ c.Nodup ∧ ∀ p ∈ c.zip (c.rotate 1), p ∈ es

instance (es : List (String × String)) (c : List String) :
    Decidable (IsElemCycle es c) := by
  unfold IsElemCycle; infer_instance

/-- Main loop of `detect_cycles`: scan the cycle stream, stop once 500
cycles are collected, keep the cycles whose length lies in
`[minLen, maxLen]`.  (The wall-clock check is modelled by feeding this
function an arbitrary prefix of the stream.) -/
def detectCyclesGo (minLen maxLen : ℕ) :
    List (List String) → List (List String) → List (List String)
  | [], acc => acc
  | c :: rest, acc =>
    if MAX_CYCLES_LIMIT ≤ acc.length then acc
    else if minLen ≤ c.length ∧ c.length ≤ maxLen then
      detectCyclesGo minLen maxLen rest (acc ++ [c])
    else detectCyclesGo minLen maxLen rest acc

/-- `FraudDetectionEngine.detect_cycles(min_length, max_length)` applied to
the stream of elementary cycles produced by the graph library. -/
def detectCycles (allCycles : List (List String)) (minLen maxLen : ℕ) :
    List (List String) :=
  detectCyclesGo minLen maxLen allCycles []

/- ### Smurfing detection (`FraudDetectionEngine.detect_smurfing_patterns`) -/

/-- A detected fan-in pattern (dict built at `detection.py:250`).  The
`senders` field is the Python set `senders_in_window` as a deduplicated
list. -/
structure FanIn where
  receiver : String
  senders : List String
  count : ℕ
  window_start : ℤ
  window_end : ℤ
  total_amount : ℚ
deriving Repr, DecidableEq

/-- A detected fan-out pattern (dict built at `detection.py:290`). -/
structure FanOut where
  sender : String
  receivers : List String
  count : ℕ
  window_start : ℤ
  window_end : ℤ
  total_amount : ℚ
deriving Repr, DecidableEq

/-- Adaptive threshold selection (`detect_smurfing_patterns`, lines
204-211): `<50` accounts → 5, `<200` → 7, otherwise 10. -/
def adaptiveThreshold (numAccounts : ℕ) : ℕ :=
  if numAccounts < 50 then 5 else if numAccounts < 200 then 7 else 10

/-- The fan-in view of one transaction (`receiver_groups` entries keep
sender, timestamp and amount). -/
structure FanTxn where
  party : String
  ts : ℤ
  amount : ℚ
deriving Repr, DecidableEq

/-- Group the timestamp-sorted transactions by a key, keeping for each key
the sorted sub-list projected to `FanTxn` (models the
`defaultdict(list)` grouping loops over `df_sorted`). -/
def groupTxnsBy (key other : Txn → String) (txns : List Txn) :
    List (String × List FanTxn) :=
  let sorted := dfSorted txns
  ((sorted.map key).dedup).map (fun k =>
    (k, (sorted.filter (fun t => key t = k)).map
      (fun t => ⟨other t, t.ts, t.amount⟩)))

/-- One step of the per-endpoint sliding window (`for i in range(...)` at
`detection.py:235-258`): at window start `t.ts`, collect the prefix of the
remaining transactions with timestamp `≤ t.ts + window` (the loop breaks at
the first transaction strictly beyond `window_end`), count distinct
counterparties, and emit at the first window that reaches the threshold. -/
def fanScan (threshold : ℕ) (window : ℤ) :
    List FanTxn → Option (List String × ℕ × ℤ × ℤ × ℚ)
  | [] => none
  | t :: rest =>
    let wEnd := t.ts + window
    let wtx := (t :: rest).takeWhile (fun x => decide (x.ts ≤ wEnd))
    let parties := (wtx.map FanTxn.party).dedup
    if threshold ≤ parties.length then
      some (parties, parties.length, t.ts, wEnd, (wtx.map FanTxn.amount).sum)
    else
      fanScan threshold window rest

/-- Fan-in half of `detect_smurfing_patterns`: for each receiver with at
least `threshold` incoming transactions, run the sliding window over its
timestamp-sorted incoming transactions; at most one pattern per receiver. -/
def detectFanIn (txns : List Txn) (threshold : ℕ) (window : ℤ) :
    List FanIn :=
  (groupTxnsBy Txn.receiver_id Txn.sender_id txns).filterMap (fun g =>
    if g.2.length < threshold then none
    else (fanScan threshold window g.2).map (fun r =>
      ⟨g.1, r.1, r.2.1, r.2.2.1, r.2.2.2.1, r.2.2.2.2⟩))

/-- Fan-out half of `detect_smurfing_patterns` (symmetric over senders). -/
def detectFanOut (txns : List Txn) (threshold : ℕ) (window : ℤ) :
    List FanOut :=
  (groupTxnsBy Txn.sender_id Txn.receiver_id txns).filterMap (fun g =>
    if g.2.length < threshold then none
    else (fanScan threshold window g.2).map (fun r =>
      ⟨g.1, r.1, r.2.1, r.2.2.1, r.2.2.2.1, r.2.2.2.2⟩))

/-- `detect_smurfing_patterns(threshold, time_window_hours)`: resolve the
adaptive threshold, convert the window to seconds, detect both halves. -/
def detectSmurfing (txns : List Txn) (threshold : Option ℕ)
    (windowHours : ℤ) : List FanIn × List FanOut :=
  let th := threshold.getD (adaptiveThreshold (nodesOf txns).length)
  (detectFanIn txns th (3600 * windowHours),
   detectFanOut txns th (3600 * windowHours))

/- ### Suspicion scoring (`FraudDetectionEngine.calculate_suspicion_scores`) -/

/-- Risk buckets used by the suspicion scorer. -/
inductive RiskLevel
  | LOW | MEDIUM | HIGH
deriving Repr, DecidableEq

/-- Score factors.  The source stores strings; each constructor models one
of them injectively: `cycle_member`, `fan_in_hub`, `fan_out_hub`,
`shell_intermediate`, `velocity_x{m:.1f}` (argument: the multiplier in
tenths), `whitelisted_legitimate_account`, `whitelisted_but_smurfing_member`
and `spread_over_time`. -/
inductive Factor
  | cycle_member
  | fan_in_hub
  | fan_out_hub
  | shell_intermediate
  | velocity (multTenths : ℕ)
  | whitelisted_legitimate_account
  | whitelisted_but_smurfing_member
  | spread_over_time
deriving Repr, DecidableEq

/-- Pattern tags stored under `patterns` by the suspicion scorer. -/
inductive PatternTag
  | cycle | fan_in | fan_out | shell_chain
deriving Repr, DecidableEq

/-- One value of the `scores` defaultdict. -/
structure ScoreEntry where
  score : ℚ
  factors : List Factor
  patterns : List PatternTag
  risk_level : RiskLevel
deriving Repr, DecidableEq

/-- The default entry materialised by the defaultdict. -/
def defaultEntry : ScoreEntry := ⟨0, [], [], .LOW⟩

/-- The `scores` dict: an association list from account id to entry, keys
unique, in insertion order. -/
abbrev ScoreMap := List (String × ScoreEntry)

/-- Dict read: `scores.get(a)` (no default materialisation). -/
def mapGet (m : ScoreMap) (a : String) : Option ScoreEntry :=
  (m.find? (fun p => p.1 = a)).map Prod.snd

/-- Defaultdict write access `scores[a] ← f scores[a]`: update in place when
the key exists, otherwise append the modified default entry. -/
def mapUpd (m : ScoreMap) (a : String) (f : ScoreEntry → ScoreEntry) :
    ScoreMap :=
  if m.any (fun p => p.1 = a) then
    m.map (fun p => if p.1 = a then (a, f p.2) else p)
  else m ++ [(a, f defaultEntry)]

/-- Step 1 of `calculate_suspicion_scores`: each account of each detected
cycle gets `+40`, factor `cycle_member`, pattern `cycle`. -/
def addCycleScores (cycles : List (List String)) (m : ScoreMap) : ScoreMap :=
  cycles.foldl (fun m c =>
    c.foldl (fun m a => mapUpd m a (fun e =>
      { e with score := e.score + 40,
               factors := e.factors ++ [.cycle_member],
               patterns := e.patterns ++ [.cycle] })) m) m

/-- Step 2: the receiver of each fan-in pattern gets `+30`. -/
def addFanInScores (fanin : List FanIn) (m : ScoreMap) : ScoreMap :=
  fanin.foldl (fun m p => mapUpd m p.receiver (fun e =>
    { e with score := e.score + 30,
             factors := e.factors ++ [.fan_in_hub],
             patterns := e.patterns ++ [.fan_in] })) m

/-- Step 3: the sender of each fan-out pattern gets `+30`. -/
def addFanOutScores (fanout : List FanOut) (m : ScoreMap) : ScoreMap :=
  fanout.foldl (fun m p => mapUpd m p.sender (fun e =>
    { e with score := e.score + 30,
             factors := e.factors ++ [.fan_out_hub],
             patterns := e.patterns ++ [.fan_out] })) m

/-- Interior (strictly between the endpoints) of a chain: `chain[1:-1]`. -/
def chainInterior (c : List String) : List String :=
  (c.drop 1).dropLast

/-- Step 4: each interior account of each detected shell chain gets
`+20`. -/
def addChainScores (chains : List (List String)) (m : ScoreMap) : ScoreMap :=
  chains.foldl (fun m c =>
    (chainInterior c).foldl (fun m a => mapUpd m a (fun e =>
      { e with score := e.score + 20,
               factors := e.factors ++ [.shell_intermediate],
               patterns := e.patterns ++ [.shell_chain] })) m) m

/-- All transactions involving account `a`, timestamp-sorted (the source
filters `df_sorted` and sorts by timestamp again). -/
def accountTxns (txns : List Txn) (a : String) : List Txn :=
  List.insertionSort (fun x y => x.ts ≤ y.ts)
    ((dfSorted txns).filter (fun t => t.sender_id = a ∨ t.receiver_id = a))

/-- Number of consecutive timestamp gaps below 24 hours (86400 s). -/
def rapidCount (tss : List ℤ) : ℕ :=
  ((tss.zip tss.tail).filter (fun p => p.2 - p.1 < 86400)).length

/-- Step 5 (velocity multiplier): for each graph node with more than one
transaction and at least two rapid gaps, multiply the score by
`min(1 + 0.1·rapid, 2.0)` and append the velocity factor.  The defaultdict
access materialises a zero entry when the account had none. -/
def velocityStep (txns : List Txn) (nodes : List String) (m : ScoreMap) :
    ScoreMap :=
  nodes.foldl (fun m a =>
    let ats := accountTxns txns a
    if 1 < ats.length then
      let r := rapidCount (ats.map Txn.ts)
      if 2 ≤ r then
        let mult : ℚ := min (1 + (r : ℚ) * (1 / 10)) 2
        mapUpd m a (fun e =>
          { e with score := e.score * mult,
                   factors := e.factors ++ [.velocity (min (10 + r) 20)] })
      else m
    else m) m

/-- The set of smurfing members (receivers and senders of fan-in patterns,
senders and receivers of fan-out patterns), as at `detection.py:494-500`. -/
def smurfMembers (fanin : List FanIn) (fanout : List FanOut) : List String :=
  fanin.foldl (fun s p => s ++ p.receiver :: p.senders) [] ++
    fanout.foldl (fun s p => s ++ p.sender :: p.receivers) []

/-- The loop body of step 6 for one whitelisted account: if the account is
**already present** in the score dict, either reduce it (smurfing member)
or zero it out (anyone else); accounts absent from the dict are left
untouched because of the `if account in scores` guard. -/
def whitelistAccountStep (smurf : List String) (m : ScoreMap) (a : String) :
    ScoreMap :=
  if m.any (fun p => p.1 = a) then
    if a ∈ smurf then
      mapUpd m a (fun e =>
        { e with score := max (e.score * (1 / 2)) 30,
                 factors := e.factors ++ [.whitelisted_but_smurfing_member] })
    else
      mapUpd m a (fun _ =>
        ⟨0, [.whitelisted_legitimate_account], [], .LOW⟩)
  else m

/-- Step 6 (whitelist override), iterated over the whitelist. -/
def whitelistStep (wl smurf : List String) (m : ScoreMap) : ScoreMap :=
  wl.foldl (whitelistAccountStep smurf) m

/-- Step 7 (spread-over-time penalty): non-whitelisted accounts whose
transactions span more than 7 days with fewer than 20 transactions get a
30 % reduction.  The defaultdict access materialises a zero entry. -/
def spreadStep (txns : List Txn) (nodes wl : List String) (m : ScoreMap) :
    ScoreMap :=
  nodes.foldl (fun m a =>
    if a ∈ wl then m
    else
      let ats := accountTxns txns a
      if 0 < ats.length then
        let span := ((ats.map Txn.ts).max?.getD 0) -
          ((ats.map Txn.ts).min?.getD 0)
        if 7 * 86400 < span ∧ ats.length < 20 then
          mapUpd m a (fun e =>
            { e with score := e.score * (7 / 10),
                     factors := e.factors ++ [.spread_over_time] })
        else m
      else m) m

/-- Capping and bucketing of one entry: score `min(·, 100)`, risk level
`≥70 → HIGH`, `≥40 → MEDIUM`, else `LOW`. -/
def capEntry (e : ScoreEntry) : ScoreEntry :=
  let s := min e.score 100
  { e with score := s,
           risk_level :=
             if 70 ≤ s then .HIGH else if 40 ≤ s then .MEDIUM else .LOW }

/-- Final step: cap each score at 100 and bucket the risk level. -/
def capStep (m : ScoreMap) : ScoreMap :=
  m.map (fun p => (p.1, capEntry p.2))

/-- Steps 1-5 of `calculate_suspicion_scores`: the base pattern
contributions followed by the velocity multiplier. -/
def baseAndVelocityScores (cycles : List (List String)) (fanin : List FanIn)
    (fanout : List FanOut) (chains : List (List String))
    (nodes : List String) (txns : List Txn) : ScoreMap :=
  velocityStep txns nodes
    (addChainScores chains
      (addFanOutScores fanout
        (addFanInScores fanin
          (addCycleScores cycles []))))

/-- `FraudDetectionEngine.calculate_suspicion_scores`, composed from its
seven steps over the detected patterns, the whitelist, the graph nodes and
the transaction list. -/
def calcSuspicionScores (cycles : List (List String)) (fanin : List FanIn)
    (fanout : List FanOut) (chains : List (List String))
    (wl nodes : List String) (txns : List Txn) : ScoreMap :=
  capStep (spreadStep txns nodes wl
    (whitelistStep wl (smurfMembers fanin fanout)
      (baseAndVelocityScores cycles fanin fanout chains nodes txns)))

/- ### Ring construction (`FraudDetectionEngine.construct_fraud_rings`) -/

/-- A fraud-ring dict as the Python code passes it around.  Every field is
optional because downstream consumers read keys with `.get(key, default)`;
the ring constructor sets the first six fields and never sets `members` or
`pattern` (those keys are read — with defaults — by the alert engine). -/
structure RingDict where
  ring_id : Option String := none
  pattern_type : Option String := none
  member_accounts : Option (List String) := none
  member_count : Option ℕ := none
  risk_score : Option ℚ := none
  description : Option String := none
  members : Option (List String) := none
  pattern : Option String := none
deriving Repr, DecidableEq

/-- `f'RING_{n:03d}'`. -/
def ringIdStr (n : ℕ) : String :=
  "RING_" ++ (if n < 10 then "00" else if n < 100 then "0" else "") ++
    toString n

/-- `self.suspicious_accounts.get(acc, {}).get('score', 0)`. -/
def scoreOf (m : ScoreMap) (a : String) : ℚ :=
  ((mapGet m a).map ScoreEntry.score).getD 0

/-- Mean of the members' suspicion scores (0 when there are no members). -/
def avgScore (m : ScoreMap) (members : List String) : ℚ :=
  if members.length = 0 then 0
  else (members.map (scoreOf m)).sum / members.length

/-- Build the ring dict for the `n`-th detected pattern. -/
def mkRing (n : ℕ) (ptype : String) (memberList : List String)
    (m : ScoreMap) (desc : String) : RingDict :=
  { ring_id := some (ringIdStr n),
    pattern_type := some ptype,
    member_accounts := some memberList,
    member_count := some memberList.length,
    risk_score := some (avgScore m memberList),
    description := some desc }

/-- The rings in input order of the detected patterns (cycles, then fan-in,
then fan-out, then shell chains), ids assigned by the running counter. -/
def rawRings (cycles : List (List String)) (fanin : List FanIn)
    (fanout : List FanOut) (chains : List (List String)) (m : ScoreMap) :
    List RingDict :=
  let k1 := cycles.length
  let k2 := k1 + fanin.length
  let k3 := k2 + fanout.length
  (cycles.enum.map (fun p => mkRing (p.1 + 1) "cycle" p.2 m
      ("Circular fund routing through " ++ toString p.2.length ++
        " accounts"))) ++
  (fanin.enum.map (fun p => mkRing (k1 + p.1 + 1) "fan_in"
      (p.2.receiver :: p.2.senders) m
      ("Smurfing collection: " ++ toString p.2.count ++
        " senders -> 1 receiver"))) ++
  (fanout.enum.map (fun p => mkRing (k2 + p.1 + 1) "fan_out"
      (p.2.sender :: p.2.receivers) m
      ("Smurfing distribution: 1 sender -> " ++ toString p.2.count ++
        " receivers"))) ++
  (chains.enum.map (fun p => mkRing (k3 + p.1 + 1) "shell_chain" p.2 m
      ("Layered shell network: " ++ toString p.2.length ++ "-hop chain")))

/-- `rings.sort(key=lambda x: x['risk_score'], reverse=True)` — stable sort
by risk score, highest first. -/
def sortRingsByRisk (rs : List RingDict) : List RingDict :=
  List.insertionSort
    (fun a b => (b.risk_score.getD 0) ≤ (a.risk_score.getD 0)) rs

/-- `FraudDetectionEngine.construct_fraud_rings`: one ring per detected
pattern in input order, then sorted by risk score descending. -/
def constructFraudRings (cycles : List (List String)) (fanin : List FanIn)
    (fanout : List FanOut) (chains : List (List String)) (m : ScoreMap) :
    List RingDict :=
  sortRingsByRisk (rawRings cycles fanin fanout chains m)

/- ### Response building (`ResponseBuilder`) -/

/-- `round(x, 1)` on the idealised rational value: round half to even at
one decimal. -/
def roundHalfEven (q : ℚ) : ℤ :=
  if Int.fract q = 1 / 2 then (if Even ⌊q⌋ then ⌊q⌋ else ⌊q⌋ + 1)
  else round q

/-- Round to one decimal place. -/
def round1 (q : ℚ) : ℚ := (roundHalfEven (10 * q) : ℚ) / 10

/-- Round to two decimal places. -/
def round2 (q : ℚ) : ℚ := (roundHalfEven (100 * q) : ℚ) / 100

/-- A `fraud_rings` entry of the canonical response. -/
structure RespRing where
  ring_id : String
  member_accounts : List String
  pattern_type : String
  risk_score : ℚ
deriving Repr, DecidableEq

/-- `ResponseBuilder._build_fraud_rings`: re-assign sequential ids by
position in the list it receives, sort members, round the risk score. -/
def buildFraudRings (raw : List RingDict) : List RespRing :=
  raw.enum.map (fun p =>
    ⟨ringIdStr (p.1 + 1),
     List.insertionSort (fun x y => x ≤ y) (p.2.member_accounts.getD []),
     p.2.pattern_type.getD "unknown",
     round1 (p.2.risk_score.getD 0)⟩)

/-- `ResponseBuilder.assign_ring_ids_to_accounts`: the id of the first ring
(in the order of the ring list it receives) containing the account. -/
def accountToRing (rings : List RingDict) (a : String) : Option String :=
  (rings.enum.find? (fun p => a ∈ p.2.member_accounts.getD [])).map
    (fun p => ringIdStr (p.1 + 1))

/-- A `suspicious_accounts` entry of the canonical response. -/
structure RespAccount where
  account_id : String
  suspicion_score : ℚ
  detected_patterns : List String
  ring_id : Option String
deriving Repr, DecidableEq

/-- `ResponseBuilder._format_patterns`: map the pattern tags to their
standardized names, add `high_velocity` when any velocity factor is
present, deduplicate and sort. -/
def formatPatterns (e : ScoreEntry) : List String :=
  let names := e.patterns.map (fun p =>
    match p with
    | .cycle => "cycle_length_3"
    | .fan_in => "fan_in_smurfing"
    | .fan_out => "fan_out_smurfing"
    | .shell_chain => "shell_chain")
  let names := names ++
    (if e.factors.any (fun f => match f with
        | .velocity _ => true
        | _ => false) then ["high_velocity"] else [])
  List.insertionSort (fun x y => x ≤ y) names.dedup

/-- `ResponseBuilder._build_suspicious_accounts`: drop zero-score accounts,
format each entry, sort by score descending with account id as
tiebreaker. -/
def buildSuspiciousAccounts (m : ScoreMap) (ringOf : String → Option String) :
    List RespAccount :=
  let l := m.filterMap (fun p =>
    if p.2.score = 0 then none
    else some (⟨p.1, round1 p.2.score, formatPatterns p.2, ringOf p.1⟩ :
      RespAccount))
  List.insertionSort (fun x y =>
    x.suspicion_score > y.suspicion_score ∨
      (x.suspicion_score = y.suspicion_score ∧ x.account_id ≤ y.account_id)) l

/- ### Shell-chain detection (`FraudDetectionEngine.detect_shell_chains`) -/

/-- `edge_timestamps[(u,v)]`: the timestamps of all transactions along the
edge; `none` when the edge carries no transaction. -/
def edgeTsList (txns : List Txn) (u v : String) : List ℤ :=
  (txns.filter (fun t => t.sender_id = u ∧ t.receiver_id = v)).map Txn.ts

/-- `min(edge_timestamps[(u,v)])` — the edge's earliest timestamp. -/
def edgeMinTs (txns : List Txn) (u v : String) : Option ℤ :=
  (edgeTsList txns u v).min?

/-- One queue item of the BFS: `(current, path, last_timestamp)`. -/
structure BfsItem where
  cur : String
  path : List String
  lastTs : Option ℤ
deriving Repr, DecidableEq

/-- `chain[1:-1]` all have total degree `≤ maxDeg`. -/
def interiorOk (txns : List Txn) (maxDeg : ℕ) (c : List String) : Prop :=
  ∀ a ∈ chainInterior c, totalDegree txns a ≤ maxDeg

instance (txns : List Txn) (maxDeg : ℕ) (c : List String) :
    Decidable (interiorOk txns maxDeg c) := by
  unfold interiorOk; infer_instance

/-- The extension step of the BFS (`for neighbor in successors(current)`,
`detection.py:369-385`): skip neighbours already on the path, skip
high-degree neighbours when the path has more than one node, and extend
only along an existing edge whose earliest timestamp is not before the
previous edge's. -/
def bfsExtensions (txns : List Txn) (maxDeg : ℕ) (it : BfsItem) :
    List BfsItem :=
  (successors txns it.cur).filterMap (fun nb =>
    if nb ∈ it.path then none
    else if 1 < it.path.length ∧ maxDeg < totalDegree txns nb then none
    else
      match edgeMinTs txns it.cur nb with
      | none => none
      | some ets =>
        match it.lastTs with
        | some lt => if ets < lt then none
                     else some ⟨nb, it.path ++ [nb], some ets⟩
        | none => some ⟨nb, it.path ++ [nb], some ets⟩)

/-- The BFS loop (`while queue`, `detection.py:347-385`), with explicit
fuel standing for the finitely many iterations the terminating Python loop
performs: pop an item; accept its path when it is long enough and all its
interior nodes are low-degree (accepted paths are not extended); drop paths
at the length bound; otherwise push all valid extensions. -/
def shellBfs (txns : List Txn) (minLen maxDeg : ℕ) :
    ℕ → List BfsItem → List (List String) → List (List String)
  | 0, _, acc => acc
  | _ + 1, [], acc => acc
  | fuel + 1, it :: queue, acc =>
    if minLen ≤ it.path.length ∧ interiorOk txns maxDeg it.path then
      shellBfs txns minLen maxDeg fuel queue (acc ++ [it.path])
    else if minLen + 2 ≤ it.path.length then
      shellBfs txns minLen maxDeg fuel queue acc
    else
      shellBfs txns minLen maxDeg fuel
        (queue ++ bfsExtensions txns maxDeg it) acc

/-- `_is_sublist`: `sub` occurs in `main` as a consecutive slice. -/
def isSublist (sub main : List String) : Bool :=
  (List.range (main.length - sub.length + 1)).any
    (fun i => (main.drop i).take sub.length = sub)

/-- Subchain deduplication (`detection.py:388-396`): keep a chain unless a
different detected chain contains it as a consecutive slice. -/
def dedupSubchains (l : List (List String)) : List (List String) :=
  l.filter (fun c => ¬ l.any (fun o => o ≠ c ∧ isSublist c o))

/-- `FraudDetectionEngine.detect_shell_chains(min_length, max_degree)`:
start a BFS from every node with outgoing edges, collect accepted paths,
deduplicate subchains.  `fuel` bounds the number of loop iterations (the
Python loop terminates because paths are bounded in length and
duplicate-free). -/
def detectShellChains (txns : List Txn) (minLen maxDeg fuel : ℕ) :
    List (List String) :=
  dedupSubchains
    ((nodesOf txns).foldl (fun acc s =>
      if outDegree txns s = 0 then acc
      else shellBfs txns minLen maxDeg fuel [⟨s, [s], none⟩] acc) [])

/- ### Alert engine (`alert_engine.py`) -/

/-- Alert severities. -/
inductive AlertSeverity
  | CRITICAL | HIGH | MEDIUM | LOW
deriving Repr, DecidableEq

/-- Alert types. -/
inductive AlertType
  | NEW_RING | RISK_SPIKE | VELOCITY_ANOMALY | NEW_CYCLE | VOLUME_ANOMALY
  | CRITICAL_NODE
deriving Repr, DecidableEq

/-- An alert.  The wall-clock id, message text, timestamp, metadata dict
and acknowledged flag carry no decision content and are omitted. -/
structure Alert where
  alert_type : AlertType
  severity : AlertSeverity
  account_id : Option String := none
  alert_ring_id : Option String := none
  alert_risk_score : Option ℚ := none
deriving Repr, DecidableEq

/-- The alert engine's `previous_state` (the `cycles` key is never read). -/
structure AlertPrevState where
  rings : List (Option String)
  risk_scores : List (String × ℚ)
  velocities : List (String × ℚ)
deriving Repr, DecidableEq

/-- Python `d.get(k, 0)` on a score/velocity dict. -/
def lookupQ (l : List (String × ℚ)) (k : String) : Option ℚ :=
  (l.find? (fun p => p.1 = k)).map Prod.snd

/-- `AlertEngine.detect_new_rings`: one alert per current ring whose id is
not in the previous ring-id set.  Note the source reads
`ring.get("members", [])` — a key the ring constructor never sets — so the
member count is the length of the default `[]`. -/
def detectNewRings (currentRings : List RingDict)
    (previousRings : List (Option String)) : List Alert :=
  currentRings.filterMap (fun r =>
    if r.ring_id ∈ previousRings then none
    else
      let memberCount := (r.members.getD []).length
      let risk := r.risk_score.getD 0
      let sev : AlertSeverity :=
        if 80 ≤ risk ∨ 10 ≤ memberCount then .CRITICAL
        else if 60 ≤ risk ∨ 7 ≤ memberCount then .HIGH
        else .MEDIUM
      some ⟨.NEW_RING, sev, none, r.ring_id, some risk⟩)

/-- `AlertEngine.detect_risk_spikes`: an alert per account whose score rose
by at least 20 since the previous run. -/
def detectRiskSpikes (current previous : List (String × ℚ)) : List Alert :=
  current.filterMap (fun p =>
    let prev := (lookupQ previous p.1).getD 0
    let spike := p.2 - prev
    if 20 ≤ spike then
      let sev : AlertSeverity :=
        if 40 ≤ spike ∨ 80 ≤ p.2 then .CRITICAL
        else if 30 ≤ spike ∨ 60 ≤ p.2 then .HIGH
        else .MEDIUM
      some ⟨.RISK_SPIKE, sev, some p.1, none, some p.2⟩
    else none)

/-- `AlertEngine.detect_velocity_anomalies`: alert when the velocity grew
fivefold or reached 10 txn/hour; a new account (previous velocity 0) alerts
at `≥ 10` with severity HIGH. -/
def detectVelocityAnomalies (current previous : List (String × ℚ)) :
    List Alert :=
  current.filterMap (fun p =>
    let prev := (lookupQ previous p.1).getD 0
    if 0 < prev then
      let ratio := p.2 / prev
      if 5 ≤ ratio ∨ 10 ≤ p.2 then
        let sev : AlertSeverity :=
          if 15 ≤ p.2 then .CRITICAL
          else if 10 ≤ p.2 then .HIGH
          else .MEDIUM
        some ⟨.VELOCITY_ANOMALY, sev, some p.1, none, none⟩
      else none
    else if 10 ≤ p.2 then
      some ⟨.VELOCITY_ANOMALY, .HIGH, some p.1, none, none⟩
    else none)

/-- `AlertEngine.detect_critical_nodes`: alert for accounts at score ≥ 85
that were absent from the previous score map. -/
def detectCriticalNodes (riskScores previousScores : List (String × ℚ)) :
    List Alert :=
  riskScores.filterMap (fun p =>
    if 85 ≤ p.2 ∧ lookupQ previousScores p.1 = none then
      some ⟨.CRITICAL_NODE, .CRITICAL, some p.1, none, some p.2⟩
    else none)

/-- `AlertEngine.analyze_and_generate_alerts`: run the four detectors
against the stored previous state, then replace the previous state with the
current one.  Returns the generated alerts and the new state.  (The alert
history buffer only archives the returned alerts and is not modelled.) -/
def analyzeAndGenerateAlerts (st : AlertPrevState)
    (currentRings : List RingDict) (riskScores velocities : List (String × ℚ)) :
    List Alert × AlertPrevState :=
  (detectNewRings currentRings st.rings ++
     detectRiskSpikes riskScores st.risk_scores ++
     detectVelocityAnomalies velocities st.velocities ++
     detectCriticalNodes riskScores st.risk_scores,
   ⟨currentRings.map RingDict.ring_id, riskScores, velocities⟩)

/- ### CSV validation (`validators.py`) -/

/-- Outcome of `pd.to_numeric(value, errors='coerce')` on one amount
field: a numeric value (possibly negative), an infinity, or `NaN` for a
string that does not parse as a number at all. -/
inductive PyFloat
  | nan
  | finite (q : ℚ)
  | inf
  | ninf
deriving Repr, DecidableEq

/-- `amounts.isna()` for one value: only failed conversions are `NaN`. -/
def PyFloat.isNan : PyFloat → Bool
  | .nan => true
  | _ => false

/-- A raw CSV record; `amount` and `timestamp` carry the library's parse
outcomes (`pd.to_numeric` and strict-format `pd.to_datetime`;
`timestamp = none` models `NaT`). -/
structure RawRow where
  transaction_id : String
  row_sender_id : String
  row_receiver_id : String
  amount : PyFloat
  timestamp : Option ℤ
deriving Repr, DecidableEq

/-- A raw CSV batch: header columns plus records. -/
structure RawBatch where
  columns : List String
  rows : List RawRow
deriving Repr, DecidableEq

/-- `EXPECTED_COLUMNS`. -/
def EXPECTED_COLUMNS : List String :=
  ["transaction_id", "sender_id", "receiver_id", "amount", "timestamp"]

/-- `validate_csv_structure`: exact column list, in order (`true` =
passes, `false` = raises `ValidationError`). -/
def validateCsvStructure (b : RawBatch) : Bool :=
  b.columns = EXPECTED_COLUMNS

/-- `validate_transaction_ids`: no duplicated `transaction_id`. -/
def validateTransactionIds (b : RawBatch) : Bool :=
  (b.rows.map RawRow.transaction_id).Nodup

/-- `validate_amounts`: fails exactly when some amount fails numeric
conversion (is `NaN`); no sign or finiteness check is performed. -/
def validateAmounts (b : RawBatch) : Bool :=
  ¬ b.rows.any (fun r => r.amount.isNan)

/-- `validate_timestamps`: fails exactly when some timestamp fails the
strict-format conversion. -/
def validateTimestamps (b : RawBatch) : Bool :=
  ¬ b.rows.any (fun r => r.timestamp = none)

/-- `validate_csv_data`: empty input fails, then the four checks in
order. -/
def validateCsvData (b : RawBatch) : Bool :=
  ¬ b.rows.isEmpty ∧ validateCsvStructure b ∧ validateTransactionIds b ∧
    validateAmounts b ∧ validateTimestamps b

/- ### Risk intelligence engine (`risk_engine.py`) -/

/-- `calculate_degree_centrality_score` for one node, as a function of the
graph library's degree-centrality, betweenness and PageRank values for that
node (all of which are nonnegative reals). -/
def centralityScore (d b p : ℚ) : ℚ :=
  min (d * 40 + b * 30 + p * 1000 * 30) 100

/-- `calculate_transaction_velocity_score` for one account: banded
contributions from transactions-per-hour, rapid-gap ratio and minimum gap,
clamped to 100. -/
def velocityScoreRE (txns : List Txn) (a : String) : ℚ :=
  let ats := accountTxns txns a
  if ats.length < 2 then 0
  else
    let tss := ats.map Txn.ts
    let spanSeconds : ℚ := max (((tss.max?.getD 0) - (tss.min?.getD 0) : ℤ) : ℚ) 1
    let totalHours := spanSeconds / 3600
    let tph := (ats.length : ℚ) / max totalHours 1
    let gaps := (tss.zip tss.tail).map (fun p => p.2 - p.1)
    let rapid := (gaps.filter (fun g => g < 3600)).length
    let rapidRatio : ℚ :=
      if gaps.length = 0 then 0 else (rapid : ℚ) / gaps.length
    let minGapHours : ℚ :=
      if gaps.length = 0 then 999 else ((gaps.min?.getD 0 : ℤ) : ℚ) / 3600
    let s1 : ℚ := if 1 < tph then 40 else if 1 / 2 < tph then 30
      else if 1 / 5 < tph then 20 else 0
    let s2 : ℚ := if 1 / 2 < rapidRatio then 35 else if 3 / 10 < rapidRatio
      then 25 else if 1 / 10 < rapidRatio then 15 else 0
    let s3 : ℚ := if minGapHours < 1 / 2 then 25 else if minGapHours < 2
      then 15 else if minGapHours < 6 then 10 else 0
    min (s1 + s2 + s3) 100

/-- `calculate_cycle_involvement_score` for one node over the cached cycle
list: 50 base when in any cycle, plus multi-cycle and complexity bands,
clamped to 100. -/
def cycleInvolvementScore (allCycles : List (List String)) (a : String) :
    ℚ :=
  let count := (allCycles.map (fun c => c.count a)).sum
  if count = 0 then 0
  else
    let complexities := allCycles.foldl
      (fun l c => l ++ List.replicate (c.count a) c.length) []
    let avg : ℚ :=
      if complexities.length = 0 then 0
      else ((complexities.map (fun n => (n : ℚ))).sum) / complexities.length
    let multi : ℚ := if 2 < count then 30 else if 1 < count then 20 else 0
    let compl : ℚ := if 4 < avg then 20 else if 3 < avg then 15 else 0
    min (50 + multi + compl) 100

/-- Edges of the induced subgraph on a member set. -/
def subEdges (txns : List Txn) (memberSet : List String) :
    List (String × String) :=
  (edgesOf txns).filter (fun e => e.1 ∈ memberSet ∧ e.2 ∈ memberSet)

/-- `calculate_ring_density_score` for one account: per ring containing it,
`50·density + 30·degree_ratio + 20·ring_risk`, clamped to 100; the account
keeps the maximum over its rings. -/
def ringDensityScore (txns : List Txn) (rings : List RingDict) (a : String) :
    ℚ :=
  rings.foldl (fun s r =>
    let memberSet := (r.member_accounts.getD []).dedup
    let k := memberSet.length
    if k < 2 then s
    else if a ∈ memberSet then
      let es := subEdges txns memberSet
      let density : ℚ := (es.length : ℚ) / max ((k : ℚ) * (k - 1)) 1
      let deg := (es.filter (fun e => e.1 = a)).length +
        (es.filter (fun e => e.2 = a)).length
      let ratio : ℚ := (deg : ℚ) / max ((k : ℚ) - 1) 1
      let ringRisk := (r.risk_score.getD 50) / 100
      max s (min (density * 50 + ratio * 30 + ringRisk * 20) 100)
    else s) 0

/-- `calculate_volume_anomaly_score` for one account.  The three global
statistics and the account's standard deviation are parameters: they are
computed by the numeric library (the standard deviations involve square
roots and are not rational in general). -/
def volumeAnomalyScore (txns : List Txn) (a : String)
    (globalMean globalStd globalMedian accountStd : ℚ) : ℚ :=
  let amts := ((txns.filter (fun t => t.sender_id = a)).map Txn.amount) ++
    ((txns.filter (fun t => t.receiver_id = a)).map Txn.amount)
  if amts.length = 0 then 0
  else
    let accountMean := amts.sum / amts.length
    let z := |accountMean - globalMean| / max globalStd 1
    let s1 : ℚ := if 3 < z then 35 else if 2 < z then 25
      else if 1 < z then 15 else 0
    let smallThreshold := globalMedian * (3 / 10)
    let smallCount := (amts.filter (fun x => x < smallThreshold)).length
    let smallRatio : ℚ := (smallCount : ℚ) / amts.length
    let s2 : ℚ := if 7 / 10 < smallRatio ∧ 10 < amts.length then 30
      else if 1 / 2 < smallRatio ∧ 5 < amts.length then 20 else 0
    let s3 : ℚ := if accountMean * (8 / 10) < accountStd ∧ 3 < amts.length
      then 20 else if accountMean * (1 / 2) < accountStd then 10 else 0
    let suspCount := (amts.filter (fun x =>
      (9500 ≤ x ∧ x < 10000) ∨ (4500 ≤ x ∧ x < 5000))).length
    let s4 : ℚ := if (amts.length : ℚ) * (3 / 10) < suspCount then 15
      else if (amts.length : ℚ) * (1 / 10) < suspCount then 10 else 0
    min (s1 + s2 + s3 + s4) 100

/-- Final step of `calculate_comprehensive_risk_scores` for one account:
the weighted sum of the five factor scores, forced to 0 for whitelisted
accounts, rounded to two decimals for the `risk_score` field. -/
def comprehensiveRiskScore (c v cy rd va : ℚ) (whitelisted : Bool) : ℚ :=
  let finalScore := c * (20 / 100) + v * (20 / 100) + cy * (25 / 100) +
    rd * (20 / 100) + va * (15 / 100)
  round2 (if whitelisted then 0 else finalScore)

/- ### Zero-score propagation (claim C10) -/

/-- "Account `a` scores zero (if tracked at all) in map `m`". -/
def zeroScoreAt (m : ScoreMap) (a : String) : Prop :=
  ∀ e, mapGet m a = some e → e.score = 0

/-- The scored roles: cycle member, fan-in receiver, fan-out sender, or
strictly interior node of a shell chain. -/
def isParticipant (cycles : List (List String)) (fanin : List FanIn)
    (fanout : List FanOut) (chains : List (List String)) (a : String) :
    Prop :=
  (∃ c ∈ cycles, a ∈ c) ∨ (∃ p ∈ fanin, p.receiver = a) ∨
    (∃ p ∈ fanout, p.sender = a) ∨ (∃ ch ∈ chains, a ∈ chainInterior ch)

/-- Concrete edge set for the C9 witness. -/
def esW : List (String × String) :=
  [("A", "B"), ("B", "C"), ("C", "A"), ("D", "E"), ("E", "D")]

/-- Concrete cycle stream for the C9 witness (one 3-cycle, one 2-cycle). -/
def allCyclesW : List (List String) := [["A", "B", "C"], ["D", "E"]]

/-- All scores in a map are nonnegative. -/
def nonnegScores (m : ScoreMap) : Prop := ∀ p ∈ m, 0 ≤ p.2.score

/- ### Claim C1: whitelist override -/

/-- Keys of a score map are pairwise distinct (Python-dict invariant). -/
def keysNodup (m : ScoreMap) : Prop := (m.map Prod.fst).Nodup

/-- Transactions of the C2 counterexample: two directed cycles
`A→B→C→A` (spread over 16 days, so its members incur the 30 % spread
penalty: scores 28) and `D→E→F→D` (compact, scores 40); no account has two
rapid gaps, so no velocity multiplier fires. -/
def txnsC2 : List Txn :=
  [⟨"T1", "A", "B", 1000, 0⟩, ⟨"T2", "B", "C", 1000, 691200⟩,
   ⟨"T3", "C", "A", 1000, 1382400⟩, ⟨"T4", "D", "E", 1000, 0⟩,
   ⟨"T5", "E", "F", 1000, 86400⟩, ⟨"T6", "F", "D", 1000, 172800⟩]

/-- The two cycles of `txnsC2` in detection order. -/
def cyclesC2 : List (List String) := [["A", "B", "C"], ["D", "E", "F"]]

/- ### Claim C8: shell-chain postconditions -/

/-- Consecutive node pairs of a path. -/
def adjPairs (c : List String) : List (String × String) := c.zip c.tail

/-- Every consecutive pair of the path is an edge carrying at least one
transaction. -/
def pathEdgesOk (txns : List Txn) (c : List String) : Prop :=
  ∀ p ∈ adjPairs c, (edgeMinTs txns p.1 p.2).isSome

instance (txns : List Txn) (c : List String) :
    Decidable (pathEdgesOk txns c) := by
  unfold pathEdgesOk; infer_instance

/-- The earliest timestamps of the path's consecutive edges, in order. -/
def mts (txns : List Txn) (c : List String) : List ℤ :=
  (adjPairs c).map (fun p => (edgeMinTs txns p.1 p.2).getD 0)

/-- The earliest timestamps of consecutive edges are non-decreasing. -/
def pathMonoOk (txns : List Txn) (c : List String) : Prop :=
  List.Chain' (fun x y : ℤ => x ≤ y) (mts txns c)

instance (txns : List Txn) (c : List String) :
    Decidable (pathMonoOk txns c) := by
  unfold pathMonoOk; infer_instance

/-- The full postcondition claimed for a detected shell chain. -/
def chainOk (txns : List Txn) (minLen maxDeg : ℕ) (c : List String) :
    Prop :=
  c.Nodup ∧ minLen ≤ c.length ∧ interiorOk txns maxDeg c ∧
    pathEdgesOk txns c ∧ pathMonoOk txns c

instance (txns : List Txn) (minLen maxDeg : ℕ) (c : List String) :
    Decidable (chainOk txns minLen maxDeg c) := by
  unfold chainOk; infer_instance

/-- Invariant carried by every BFS queue item. -/
def itemOk (txns : List Txn) (it : BfsItem) : Prop :=
  it.path ≠ [] ∧ it.path.getLast? = some it.cur ∧ it.path.Nodup ∧
    pathEdgesOk txns it.path ∧ pathMonoOk txns it.path ∧
    (match it.lastTs with
     | none => it.path.length = 1
     | some lt => (mts txns it.path).getLast? = some lt)

def txnsC8 : List Txn :=
  [⟨"T1", "X", "a", 100, 0⟩, ⟨"T2", "a", "b", 100, 3600⟩,
   ⟨"T3", "b", "Y", 100, 7200⟩]

/- ### C4: fan-in emission -/

/-- The window contents as the scan loop computes them (`detection.py:243-246`):
from the window-start transaction onward, take transactions until the first
one strictly beyond `window_end` (so a transaction at exactly `window_end`
is included). -/
def winTxns (w : ℤ) : List FanTxn → List FanTxn
  | [] => []
  | t :: rest => (t :: rest).takeWhile (fun x => decide (x.ts ≤ t.ts + w))

/-- The window contents as the spec describes them, with the corrected
closed bound: all remaining transactions whose timestamp lies in
`[t, t + w]` (the lower bound is automatic on a time-sorted list). -/
def winFilter (w : ℤ) : List FanTxn → List FanTxn
  | [] => []
  | t :: rest => (t :: rest).filter (fun x => decide (x.ts ≤ t.ts + w))

def txnsC4 : List Txn :=
  [⟨"T1", "A", "H", 100, 0⟩, ⟨"T2", "B", "H", 100, 3600⟩]

/- ### Score-map lemmas -/

theorem mapGet_nil (a : String) : mapGet [] a = none := rfl

theorem find?_mapUpdFun (m : List (String × ScoreEntry)) (a x : String)
    (f : ScoreEntry → ScoreEntry) :
    (m.map (fun p => if p.1 = a then (a, f p.2) else p)).find?
        (fun p => p.1 = x) =
      if x = a then
        (m.find? (fun p => p.1 = a)).map (fun p => (a, f p.2))
      else m.find? (fun p => p.1 = x) := by
  induction m with
  | nil => by_cases hxa : x = a <;> simp [hxa]
  | cons p rest ih =>
    by_cases hpa : p.1 = a
    · by_cases hxa : x = a
      · subst hxa
        simp only [List.map_cons, if_pos hpa, if_pos rfl]
        rw [List.find?_cons_of_pos _ (by simp), List.find?_cons_of_pos _ (by simpa using hpa)]
        simp
      · have hax : ¬ a = x := fun h => hxa h.symm
        have hpx : ¬ p.1 = x := fun h => hxa (by rw [← h, hpa])
        simp only [List.map_cons, if_pos hpa, if_neg hxa]
        rw [List.find?_cons_of_neg _ (by simpa using hax),
          List.find?_cons_of_neg _ (by simpa using hpx)]
        simpa [hxa] using ih
    · by_cases hpx : p.1 = x
      · have hxa : ¬ x = a := fun h => hpa (by rw [hpx, h])
        simp only [List.map_cons, if_neg hpa, if_neg hxa]
        rw [List.find?_cons_of_pos _ (by simpa using hpx),
          List.find?_cons_of_pos _ (by simpa using hpx)]
      · simp only [List.map_cons, if_neg hpa]
        by_cases hxa : x = a
        · subst hxa
          simp only [if_pos rfl]
          rw [List.find?_cons_of_neg _ (by simpa using hpx),
            List.find?_cons_of_neg _ (by simpa using hpa)]
          simpa using ih
        · simp only [if_neg hxa]
          rw [List.find?_cons_of_neg _ (by simpa using hpx),
            List.find?_cons_of_neg _ (by simpa using hpx)]
          simpa [hxa] using ih

theorem mapGet_isSome_iff_any (m : ScoreMap) (a : String) :
    (m.any (fun p => p.1 = a)) = true ↔ (mapGet m a).isSome := by
  constructor
  · intro h
    rcases List.any_eq_true.mp h with ⟨p, hp, hpa⟩
    have hs : (m.find? (fun p => p.1 = a)).isSome :=
      List.find?_isSome.mpr ⟨p, hp, hpa⟩
    rcases Option.isSome_iff_exists.mp hs with ⟨q, hq⟩
    simp [mapGet, hq]
  · intro h
    cases hf : m.find? (fun q => q.1 = a) with
    | none => simp [mapGet, hf] at h
    | some pr =>
      have hpa := List.find?_some hf
      exact List.any_eq_true.mpr ⟨pr, List.mem_of_find?_eq_some hf, hpa⟩

/-- The fundamental description of a defaultdict write. -/
theorem mapGet_mapUpd (m : ScoreMap) (a : String) (f : ScoreEntry → ScoreEntry)
    (x : String) :
    mapGet (mapUpd m a f) x =
      if x = a then some (f ((mapGet m a).getD defaultEntry))
      else mapGet m x := by
  unfold mapUpd
  by_cases hpres : m.any (fun p => p.1 = a) = true
  · rw [if_pos hpres]
    have hsome : (mapGet m a).isSome := (mapGet_isSome_iff_any m a).mp hpres
    unfold mapGet
    rw [find?_mapUpdFun]
    by_cases hxa : x = a
    · subst hxa
      cases h : m.find? (fun p => p.1 = x) with
      | none =>
        exfalso
        unfold mapGet at hsome
        rw [h] at hsome
        simp at hsome
      | some p =>
        simp [h]
    · simp [hxa]
  · rw [if_neg hpres]
    have hnone : m.find? (fun p => p.1 = a) = none := by
      rw [List.find?_eq_none]
      intro p hp
      simp only [decide_eq_true_eq]
      intro hpa
      exact hpres (List.any_eq_true.mpr ⟨p, hp, by simpa using hpa⟩)
    unfold mapGet
    rw [List.find?_append, hnone]
    by_cases hxa : x = a
    · subst hxa
      rw [hnone]
      simp
    · have hax : ¬ a = x := fun h => hxa h.symm
      cases h : m.find? (fun p => p.1 = x) with
      | none => simp [h, hxa, hax]
      | some p => simp [h, hxa]

/-- Generic preservation of a property along a left fold. -/
theorem foldl_invariant {α β : Type} (P : α → Prop) (step : α → β → α)
    (l : List β) (h : ∀ s b, b ∈ l → P s → P (step s b)) (s : α)
    (hs : P s) : P (l.foldl step s) := by
  induction l generalizing s with
  | nil => exact hs
  | cons b rest ih =>
    exact ih (fun s c hc => h s c (List.mem_cons_of_mem _ hc))
      (step s b) (h s b (List.mem_cons_self _ _) hs)

theorem mapGet_capStep (m : ScoreMap) (a : String) :
    mapGet (capStep m) a = (mapGet m a).map capEntry := by
  unfold capStep mapGet
  induction m with
  | nil => rfl
  | cons p rest ih =>
    by_cases hpa : p.1 = a
    · rw [List.map_cons, List.find?_cons_of_pos _ (by simpa using hpa),
        List.find?_cons_of_pos _ (by simpa using hpa)]
      rfl
    · rw [List.map_cons, List.find?_cons_of_neg _ (by simpa using hpa),
        List.find?_cons_of_neg _ (by simpa using hpa)]
      exact ih

/-- A fold of per-key dict writes leaves other keys untouched. -/
theorem mapGet_foldl_mapUpd_ne {β : Type} (l : List β) (key : β → String)
    (F : β → ScoreEntry → ScoreEntry) (a : String)
    (h : ∀ b ∈ l, key b ≠ a) (m : ScoreMap) :
    mapGet (l.foldl (fun m b => mapUpd m (key b) (F b)) m) a = mapGet m a := by
  induction l generalizing m with
  | nil => rfl
  | cons b rest ih =>
    rw [List.foldl_cons,
      ih (fun c hc => h c (List.mem_cons_of_mem _ hc)),
      mapGet_mapUpd, if_neg (fun hx => h b (List.mem_cons_self _ _) hx.symm)]

theorem mapGet_addCycleScores_ne (cycles : List (List String)) (m : ScoreMap)
    (a : String) (h : ∀ c ∈ cycles, a ∉ c) :
    mapGet (addCycleScores cycles m) a = mapGet m a := by
  unfold addCycleScores
  refine foldl_invariant (fun m' => mapGet m' a = mapGet m a) _ cycles ?_ m rfl
  intro s c hc hs
  refine foldl_invariant (fun m' => mapGet m' a = mapGet m a) _ c ?_ s hs
  intro s' x hx hs'
  have hne : ¬ (a = x) := by intro hax; subst hax; exact h c hc hx
  rw [mapGet_mapUpd, if_neg hne, hs']

theorem mapGet_addFanInScores_ne (fanin : List FanIn) (m : ScoreMap)
    (a : String) (h : ∀ p ∈ fanin, p.receiver ≠ a) :
    mapGet (addFanInScores fanin m) a = mapGet m a := by
  unfold addFanInScores
  refine foldl_invariant (fun m' => mapGet m' a = mapGet m a) _ fanin ?_ m rfl
  intro s p hp hs
  rw [mapGet_mapUpd, if_neg (fun hax => (h p hp) hax.symm), hs]

theorem mapGet_addFanOutScores_ne (fanout : List FanOut) (m : ScoreMap)
    (a : String) (h : ∀ p ∈ fanout, p.sender ≠ a) :
    mapGet (addFanOutScores fanout m) a = mapGet m a := by
  unfold addFanOutScores
  refine foldl_invariant (fun m' => mapGet m' a = mapGet m a) _ fanout ?_ m rfl
  intro s p hp hs
  rw [mapGet_mapUpd, if_neg (fun hax => (h p hp) hax.symm), hs]

theorem mapGet_addChainScores_ne (chains : List (List String)) (m : ScoreMap)
    (a : String) (h : ∀ c ∈ chains, a ∉ chainInterior c) :
    mapGet (addChainScores chains m) a = mapGet m a := by
  unfold addChainScores
  refine foldl_invariant (fun m' => mapGet m' a = mapGet m a) _ chains ?_ m rfl
  intro s c hc hs
  refine foldl_invariant (fun m' => mapGet m' a = mapGet m a) _
    (chainInterior c) ?_ s hs
  intro s' x hx hs'
  have hne : ¬ (a = x) := by intro hax; subst hax; exact h c hc hx
  rw [mapGet_mapUpd, if_neg hne, hs']

theorem zeroScoreAt_velocityStep (txns : List Txn) (nodes : List String)
    (m : ScoreMap) (a : String) (hz : zeroScoreAt m a) :
    zeroScoreAt (velocityStep txns nodes m) a := by
  unfold velocityStep
  refine foldl_invariant (fun m' => zeroScoreAt m' a) _ nodes ?_ m hz
  intro s b _ hzs
  dsimp only
  split_ifs with h1 h2
  · intro e he
    rw [mapGet_mapUpd] at he
    by_cases hab : a = b
    · rw [if_pos hab] at he
      cases he
      have h0 : ((mapGet s b).getD defaultEntry).score = 0 := by
        cases hsb : mapGet s b with
        | none => simp [defaultEntry]
        | some e' => simpa using hzs e' (hab ▸ hsb)
      simp [h0]
    · rw [if_neg hab] at he
      exact hzs e he
  · exact hzs
  · exact hzs

theorem whitelistStep_get_ne (wl smurf : List String) (m : ScoreMap)
    (a : String) (h : a ∉ wl) :
    mapGet (whitelistStep wl smurf m) a = mapGet m a := by
  unfold whitelistStep
  refine foldl_invariant (fun m' => mapGet m' a = mapGet m a) _ wl ?_ m rfl
  intro s b hb hs
  have hne : ¬ (a = b) := by intro hab; subst hab; exact h hb
  unfold whitelistAccountStep
  split_ifs with h1 h2
  · rw [mapGet_mapUpd, if_neg hne, hs]
  · rw [mapGet_mapUpd, if_neg hne, hs]
  · exact hs

theorem zeroScoreAt_spreadStep (txns : List Txn) (nodes wl : List String)
    (m : ScoreMap) (a : String) (hz : zeroScoreAt m a) :
    zeroScoreAt (spreadStep txns nodes wl m) a := by
  unfold spreadStep
  refine foldl_invariant (fun m' => zeroScoreAt m' a) _ nodes ?_ m hz
  intro s b _ hzs
  dsimp only
  split_ifs with h1 h2 h3
  · exact hzs
  · intro e he
    rw [mapGet_mapUpd] at he
    by_cases hab : a = b
    · rw [if_pos hab] at he
      cases he
      have h0 : ((mapGet s b).getD defaultEntry).score = 0 := by
        cases hsb : mapGet s b with
        | none => simp [defaultEntry]
        | some e' => simpa using hzs e' (hab ▸ hsb)
      simp [h0]
    · rw [if_neg hab] at he
      exact hzs e he
  · exact hzs
  · exact hzs

theorem zeroScoreAt_capStep (m : ScoreMap) (a : String)
    (hz : zeroScoreAt m a) : zeroScoreAt (capStep m) a := by
  intro e he
  rw [mapGet_capStep] at he
  rcases Option.map_eq_some'.mp he with ⟨e', he', rfl⟩
  have h0 := hz e' he'
  simp [capEntry, h0]

/-- C10: for every non-whitelisted account, a nonzero final suspicion score
implies participation in a detected pattern in a scored role: member of a
detected cycle, receiver of a fan-in pattern, sender of a fan-out pattern,
or strictly interior node of a shell chain.  The velocity multiplier and
the spread-over-time penalty alone never give a non-participant a positive
score. -/
theorem C10_nonzero_score_implies_participant
    (cycles : List (List String)) (fanin : List FanIn) (fanout : List FanOut)
    (chains : List (List String)) (wl nodes : List String) (txns : List Txn)
    (a : String) (e : ScoreEntry) (hwl : a ∉ wl)
    (hget : mapGet (calcSuspicionScores cycles fanin fanout chains wl nodes
      txns) a = some e)
    (hne : e.score ≠ 0) : isParticipant cycles fanin fanout chains a := by
  by_contra hnp
  unfold isParticipant at hnp
  push_neg at hnp
  obtain ⟨hc, hfi, hfo, hch⟩ := hnp
  have h4 : mapGet (addChainScores chains (addFanOutScores fanout
      (addFanInScores fanin (addCycleScores cycles [])))) a = none := by
    rw [mapGet_addChainScores_ne _ _ _ hch,
      mapGet_addFanOutScores_ne _ _ _ hfo,
      mapGet_addFanInScores_ne _ _ _ hfi,
      mapGet_addCycleScores_ne _ _ _ hc]
    rfl
  have h5 : zeroScoreAt (baseAndVelocityScores cycles fanin fanout chains
      nodes txns) a := by
    unfold baseAndVelocityScores
    refine zeroScoreAt_velocityStep _ _ _ _ ?_
    intro e' he'
    rw [h4] at he'
    cases he'
  have h6 : zeroScoreAt (whitelistStep wl (smurfMembers fanin fanout)
      (baseAndVelocityScores cycles fanin fanout chains nodes txns)) a := by
    intro e' he'
    rw [whitelistStep_get_ne _ _ _ _ hwl] at he'
    exact h5 e' he'
  have h7 := zeroScoreAt_spreadStep txns nodes wl _ a h6
  have h8 := zeroScoreAt_capStep _ a h7
  exact hne (h8 e hget)

/-- Witness for C10 at a concrete input: account `A` of a detected cycle
ends with score 40, and the theorem yields its participation. -/
theorem C10_witness :
    ("A" ∉ ([] : List String)) ∧
    mapGet (calcSuspicionScores [["A", "B", "C"]] [] [] [] []
        ["A", "B", "C"] []) "A" =
      some ⟨40, [.cycle_member], [.cycle], .MEDIUM⟩ ∧
    isParticipant [["A", "B", "C"]] [] [] [] "A" := by
  refine ⟨by simp, ?_, ?_⟩
  · norm_num +decide [calcSuspicionScores, baseAndVelocityScores,
      addCycleScores, addFanInScores, addFanOutScores, addChainScores,
      velocityStep, whitelistStep, spreadStep, capStep, capEntry, mapUpd,
      mapGet, accountTxns, dfSorted, smurfMembers, defaultEntry, rapidCount,
      List.insertionSort, List.orderedInsert]
  · refine C10_nonzero_score_implies_participant [["A", "B", "C"]] [] [] []
      [] ["A", "B", "C"] [] "A" ⟨40, [.cycle_member], [.cycle], .MEDIUM⟩
      (by simp) ?_ (by norm_num)
    norm_num +decide [calcSuspicionScores, baseAndVelocityScores,
      addCycleScores, addFanInScores, addFanOutScores, addChainScores,
      velocityStep, whitelistStep, spreadStep, capStep, capEntry, mapUpd,
      mapGet, accountTxns, dfSorted, smurfMembers, defaultEntry, rapidCount,
      List.insertionSort, List.orderedInsert]

/- ### Claim C9: cycle enumeration caps and length filter -/

theorem detectCyclesGo_mem (minLen maxLen : ℕ) :
    ∀ (stream acc : List (List String)) (x : List String),
      x ∈ detectCyclesGo minLen maxLen stream acc →
      x ∈ acc ∨ (x ∈ stream ∧ minLen ≤ x.length ∧ x.length ≤ maxLen) := by
  intro stream
  induction stream with
  | nil => intro acc x hx; exact Or.inl hx
  | cons c rest ih =>
    intro acc x hx
    rw [detectCyclesGo] at hx
    split_ifs at hx with h1 h2
    · exact Or.inl hx
    · rcases ih _ x hx with h | h
      · rcases List.mem_append.mp h with h | h
        · exact Or.inl h
        · obtain rfl := List.mem_singleton.mp h
          exact Or.inr ⟨List.mem_cons_self _ _, h2.1, h2.2⟩
      · exact Or.inr ⟨List.mem_cons_of_mem _ h.1, h.2⟩
    · rcases ih _ x hx with h | h
      · exact Or.inl h
      · exact Or.inr ⟨List.mem_cons_of_mem _ h.1, h.2⟩

theorem detectCyclesGo_length (minLen maxLen : ℕ) :
    ∀ (stream acc : List (List String)), acc.length ≤ MAX_CYCLES_LIMIT →
      (detectCyclesGo minLen maxLen stream acc).length ≤ MAX_CYCLES_LIMIT := by
  intro stream
  induction stream with
  | nil => intro acc h; exact h
  | cons c rest ih =>
    intro acc h
    rw [detectCyclesGo]
    split_ifs with h1 h2
    · exact h
    · refine ih _ ?_
      simp only [List.length_append, List.length_singleton]
      omega
    · exact ih _ h

/-- C9: `detect_cycles(min_length, max_length)` run on any prefix of the
elementary-cycle stream (the wall-clock budget stops the scan after an
arbitrary prefix, returning the partial list rather than an error) returns
only elementary cycles of the graph whose length lies in
`[min_length, max_length]` — with the defaults, length 3 to 5 — and at
most 500 cycles (the max-cycles cap). -/
theorem C9_detect_cycles_sound (es : List (String × String))
    (allCycles : List (List String)) (k minLen maxLen : ℕ)
    (h : ∀ c ∈ allCycles, IsElemCycle es c) :
    (∀ c ∈ detectCycles (allCycles.take k) minLen maxLen,
      IsElemCycle es c ∧ minLen ≤ c.length ∧ c.length ≤ maxLen) ∧
    (detectCycles (allCycles.take k) minLen maxLen).length ≤
      MAX_CYCLES_LIMIT := by
  constructor
  · intro c hc
    rcases detectCyclesGo_mem minLen maxLen _ [] c hc with h0 | h0
    · cases h0
    · exact ⟨h (c) (List.mem_of_mem_take h0.1), h0.2⟩
  · exact detectCyclesGo_length minLen maxLen _ [] (by simp [MAX_CYCLES_LIMIT])

/-- Witness for C9 at a concrete stream of two elementary cycles. -/
theorem C9_witness :
    (∀ c ∈ allCyclesW, IsElemCycle esW c) ∧
    (∀ c ∈ detectCycles (allCyclesW.take 5) 3 5,
      IsElemCycle esW c ∧ 3 ≤ c.length ∧ c.length ≤ 5) ∧
    (detectCycles (allCyclesW.take 5) 3 5).length ≤ MAX_CYCLES_LIMIT ∧
    detectCycles (allCyclesW.take 5) 3 5 = [["A", "B", "C"]] := by
  refine ⟨by decide, ?_, ?_, by decide⟩
  · exact (C9_detect_cycles_sound esW allCyclesW 5 3 5 (by decide)).1
  · exact (C9_detect_cycles_sound esW allCyclesW 5 3 5 (by decide)).2

/- ### Claim C5: amount validation -/

/-- Counterexample to C5 as stated: a batch whose amounts include a
negative number and an infinity passes the full validation, although the
claim requires a `ValidationError` for any negative or non-finite
amount. -/
theorem C5_counterexample :
    validateCsvData
      { columns := EXPECTED_COLUMNS,
        rows := [⟨"T1", "A", "B", .finite (-5), some 0⟩,
                 ⟨"T2", "C", "D", .inf, some 10⟩] } = true := by
  decide

/-- Case analysis for the NaN flag. -/
theorem PyFloat.isNan_iff (x : PyFloat) : x.isNan = true ↔ x = .nan := by
  cases x <;> simp [PyFloat.isNan]

/-- C5 (amended): the amount check fails exactly when some record's amount
fails numeric conversion altogether (`NaN` after coercion); negative and
non-finite numeric values are accepted, and records whose amounts are valid
non-negative finite numbers pass the amount check.  The full validation
passes only if the amount check passes. -/
theorem C5_amount_validation (b : RawBatch) :
    (validateAmounts b = true ↔ ∀ r ∈ b.rows, r.amount ≠ .nan) ∧
    (validateCsvData b = true → validateAmounts b = true) := by
  constructor
  · simp [validateAmounts, List.any_eq_true, PyFloat.isNan_iff]
  · intro h
    simp only [validateCsvData, decide_eq_true_eq] at h
    exact h.2.2.2.1

/-- Witness for C5 (amended) at a concrete batch with a valid non-negative
finite amount. -/
theorem C5_witness :
    validateAmounts
      { columns := EXPECTED_COLUMNS,
        rows := [⟨"T1", "A", "B", .finite 3, some 0⟩] } = true :=
  (C5_amount_validation _).1.mpr (by decide)

/- ### Claim C3: alert differ on an identical state -/

theorem lookupQ_self (l : List (String × ℚ))
    (hl : (l.map Prod.fst).Nodup) :
    ∀ k v, (k, v) ∈ l → lookupQ l k = some v := by
  induction l with
  | nil => intro k v hv; cases hv
  | cons p rest ih =>
    rw [List.map_cons, List.nodup_cons] at hl
    intro k v hv
    rcases List.mem_cons.mp hv with h | h
    · unfold lookupQ
      rw [List.find?_cons_of_pos _ (by simp [← h])]
      simp [← h]
    · have hk : k ∈ rest.map Prod.fst := List.mem_map_of_mem _ h
      have hpk : ¬ p.1 = k := fun he => hl.1 (he ▸ hk)
      unfold lookupQ
      rw [List.find?_cons_of_neg _ (by simpa using hpk)]
      exact ih hl.2 k v h

theorem detectNewRings_self (rings : List RingDict) :
    detectNewRings rings (rings.map RingDict.ring_id) = [] := by
  unfold detectNewRings
  rw [List.filterMap_eq_nil_iff]
  intro r hr
  rw [if_pos (List.mem_map_of_mem _ hr)]

theorem detectRiskSpikes_self (risk : List (String × ℚ))
    (h : (risk.map Prod.fst).Nodup) : detectRiskSpikes risk risk = [] := by
  unfold detectRiskSpikes
  rw [List.filterMap_eq_nil_iff]
  intro p hp
  have hl : lookupQ risk p.1 = some p.2 := lookupQ_self risk h p.1 p.2 hp
  rw [hl]
  norm_num

theorem detectCriticalNodes_self (risk : List (String × ℚ))
    (h : (risk.map Prod.fst).Nodup) : detectCriticalNodes risk risk = [] := by
  unfold detectCriticalNodes
  rw [List.filterMap_eq_nil_iff]
  intro p hp
  have hl : lookupQ risk p.1 = some p.2 := lookupQ_self risk h p.1 p.2 hp
  rw [hl]
  simp

theorem detectVelocityAnomalies_self (vel : List (String × ℚ))
    (h : (vel.map Prod.fst).Nodup) :
    detectVelocityAnomalies vel vel =
      vel.filterMap (fun p =>
        if 10 ≤ p.2 then
          some ⟨.VELOCITY_ANOMALY,
            (if 15 ≤ p.2 then .CRITICAL else .HIGH), some p.1, none, none⟩
        else none) := by
  unfold detectVelocityAnomalies
  refine List.filterMap_congr ?_
  intro p hp
  have hl : lookupQ vel p.1 = some p.2 := lookupQ_self vel h p.1 p.2 hp
  rw [hl]
  simp only [Option.getD_some]
  by_cases hpos : 0 < p.2
  · rw [if_pos hpos]
    have hratio : p.2 / p.2 = 1 := div_self (ne_of_gt hpos)
    rw [hratio]
    by_cases h10 : 10 ≤ p.2 <;> by_cases h15 : 15 ≤ p.2 <;>
      simp [h10, h15]
  · rw [if_neg hpos]
    have h10 : ¬ 10 ≤ p.2 := by push_neg at hpos ⊢; linarith
    rw [if_neg h10, if_neg h10]

/-- Counterexample to C3 as stated: on a state with one account whose
velocity is 10 txn/hour, the second run over the identical state still
produces a (velocity-anomaly) alert, not zero alerts. -/
theorem C3_counterexample :
    (analyzeAndGenerateAlerts
        (analyzeAndGenerateAlerts ⟨[], [], []⟩ [] [] [("A", 10)]).2
        [] [] [("A", 10)]).1 =
      [⟨.VELOCITY_ANOMALY, .HIGH, some "A", none, none⟩] := by
  norm_num +decide [analyzeAndGenerateAlerts, detectNewRings,
    detectRiskSpikes, detectVelocityAnomalies, detectCriticalNodes, lookupQ,
    List.filterMap]

/-- C3 (amended): running the alert differ twice on the same state `S`
produces, on the second run, no NEW_RING, RISK_SPIKE or CRITICAL_NODE
alerts; it produces exactly one VELOCITY_ANOMALY alert for each account
whose current velocity is at least 10 txn/hour (CRITICAL at ≥ 15, HIGH
otherwise) — in particular, zero alerts when every velocity is below
10. -/
theorem C3_second_run_alerts (st : AlertPrevState) (rings : List RingDict)
    (risk vel : List (String × ℚ)) (hrisk : (risk.map Prod.fst).Nodup)
    (hvel : (vel.map Prod.fst).Nodup) :
    (analyzeAndGenerateAlerts
        (analyzeAndGenerateAlerts st rings risk vel).2 rings risk vel).1 =
      vel.filterMap (fun p =>
        if 10 ≤ p.2 then
          some ⟨.VELOCITY_ANOMALY,
            (if 15 ≤ p.2 then .CRITICAL else .HIGH), some p.1, none, none⟩
        else none) := by
  unfold analyzeAndGenerateAlerts
  simp only
  rw [detectNewRings_self, detectRiskSpikes_self risk hrisk,
    detectCriticalNodes_self risk hrisk,
    detectVelocityAnomalies_self vel hvel]
  simp

/-- Witness for C3 (amended) at a concrete state: one ring, one risk
score, one low-velocity and one high-velocity account. -/
theorem C3_witness :
    ((([("B", (30 : ℚ))] : List (String × ℚ)).map Prod.fst).Nodup) ∧
    ((([("A", (3 : ℚ)), ("C", (16 : ℚ))] : List (String × ℚ)).map
      Prod.fst).Nodup) ∧
    (analyzeAndGenerateAlerts
        (analyzeAndGenerateAlerts ⟨[], [], []⟩
          [{ ring_id := some "RING_001" }] [("B", 30)]
          [("A", 3), ("C", 16)]).2
        [{ ring_id := some "RING_001" }] [("B", 30)]
        [("A", 3), ("C", 16)]).1 =
      ([("A", (3 : ℚ)), ("C", (16 : ℚ))]).filterMap (fun p =>
        if 10 ≤ p.2 then
          some ⟨.VELOCITY_ANOMALY,
            (if 15 ≤ p.2 then .CRITICAL else .HIGH), some p.1, none, none⟩
        else none) := by
  refine ⟨by decide, by decide, ?_⟩
  exact C3_second_run_alerts ⟨[], [], []⟩ [{ ring_id := some "RING_001" }]
    [("B", 30)] [("A", 3), ("C", 16)] (by decide) (by decide)

/- ### Claim C6: NEW_RING severity (code bug: `members` key mismatch) -/

/-- C6 divergence, evaluated on the code: the ring constructor emits a
12-member fan-in ring (`member_count = 12`, key `member_accounts`), but
`detect_new_rings` reads `ring.get("members", [])` — a key the constructor
never sets — so it sees 0 members and grades the new ring MEDIUM, although
the claim (and the spec's severity ladder) requires CRITICAL for any ring
with at least 10 members. -/
theorem C6_code_divergence :
    (constructFraudRings [] [⟨"H", ["S01", "S02", "S03", "S04", "S05",
        "S06", "S07", "S08", "S09", "S10", "S11"], 11, 0, 259200, 1100⟩]
        [] [] [("H", ⟨30, [.fan_in_hub], [.fan_in], .LOW⟩)]).map
      (fun r => r.member_count.getD 0) = [12] ∧
    detectNewRings
      (constructFraudRings [] [⟨"H", ["S01", "S02", "S03", "S04", "S05",
        "S06", "S07", "S08", "S09", "S10", "S11"], 11, 0, 259200, 1100⟩]
        [] [] [("H", ⟨30, [.fan_in_hub], [.fan_in], .LOW⟩)]) [] =
      [⟨.NEW_RING, .MEDIUM, none, some "RING_001", some (5 / 2)⟩] := by
  constructor <;>
    norm_num +decide [constructFraudRings, sortRingsByRisk, rawRings,
      mkRing, avgScore, scoreOf, mapGet, ringIdStr, detectNewRings,
      List.filterMap, List.insertionSort, List.orderedInsert, List.enum,
      List.enumFrom]

/- ### Claim C7: score bounds -/

theorem roundHalfEven_nonneg (q : ℚ) (h : 0 ≤ q) : 0 ≤ roundHalfEven q := by
  unfold roundHalfEven
  split_ifs with h1 h2
  · exact Int.floor_nonneg.mpr h
  · have := Int.floor_nonneg.mpr h
    omega
  · rw [round_eq]
    exact Int.floor_nonneg.mpr (by linarith)

theorem roundHalfEven_le (q : ℚ) (n : ℤ) (h : q ≤ n) :
    roundHalfEven q ≤ n := by
  unfold roundHalfEven
  split_ifs with h1 h2
  · exact_mod_cast (Int.floor_le q).trans h
  · have hfr : (⌊q⌋ : ℚ) = q - 1 / 2 := by
      have hd : Int.fract q = q - ⌊q⌋ := rfl
      rw [h1] at hd
      linarith
    have hlt : (⌊q⌋ : ℚ) < (n : ℚ) := by rw [hfr]; linarith
    have : ⌊q⌋ < n := by exact_mod_cast hlt
    omega
  · rw [round_eq]
    calc ⌊q + 1 / 2⌋ ≤ ⌊(n : ℚ) + 1 / 2⌋ :=
          Int.floor_le_floor (by linarith)
      _ = n := by
          rw [add_comm, Int.floor_add_int]
          norm_num

theorem round2_bounds (q : ℚ) (h0 : 0 ≤ q) (h100 : q ≤ 100) :
    0 ≤ round2 q ∧ round2 q ≤ 100 := by
  unfold round2
  constructor
  · have := roundHalfEven_nonneg (100 * q) (by positivity)
    positivity
  · have h1 : roundHalfEven (100 * q) ≤ (10000 : ℤ) :=
      roundHalfEven_le _ _ (by push_cast; linarith)
    rw [div_le_iff (by norm_num : (0:ℚ) < 100)]
    calc ((roundHalfEven (100 * q) : ℤ) : ℚ) ≤ ((10000 : ℤ) : ℚ) := by
          exact_mod_cast h1
      _ = 100 * 100 := by norm_num

theorem centralityScore_bounds (d b p : ℚ) (hd : 0 ≤ d) (hb : 0 ≤ b)
    (hp : 0 ≤ p) : 0 ≤ centralityScore d b p ∧ centralityScore d b p ≤ 100 := by
  unfold centralityScore
  exact ⟨le_min (by positivity) (by norm_num), min_le_right _ _⟩

set_option maxHeartbeats 1000000 in
theorem velocityScoreRE_bounds (txns : List Txn) (a : String) :
    0 ≤ velocityScoreRE txns a ∧ velocityScoreRE txns a ≤ 100 := by
  unfold velocityScoreRE
  dsimp only
  constructor
  · split_ifs <;>
      first
        | norm_num
        | exact le_min (by norm_num) (by norm_num)
  · split_ifs <;>
      first
        | norm_num
        | exact min_le_right _ _

theorem cycleInvolvementScore_bounds (allCycles : List (List String))
    (a : String) :
    0 ≤ cycleInvolvementScore allCycles a ∧
      cycleInvolvementScore allCycles a ≤ 100 := by
  unfold cycleInvolvementScore
  dsimp only
  constructor
  · split_ifs <;>
      first
        | norm_num
        | exact le_min (by norm_num) (by norm_num)
  · split_ifs <;>
      first
        | norm_num
        | exact min_le_right _ _

theorem ringDensityScore_bounds (txns : List Txn) (rings : List RingDict)
    (a : String) :
    0 ≤ ringDensityScore txns rings a ∧ ringDensityScore txns rings a ≤ 100 := by
  unfold ringDensityScore
  refine foldl_invariant (fun s : ℚ => 0 ≤ s ∧ s ≤ 100) _ rings ?_ 0
    ⟨le_refl 0, by norm_num⟩
  intro s r _ hs
  dsimp only
  split_ifs with h1 h2
  · exact hs
  · exact ⟨le_trans hs.1 (le_max_left _ _),
      max_le hs.2 (min_le_right _ _)⟩
  · exact hs

theorem volumeAnomalyScore_bounds (txns : List Txn) (a : String)
    (gm gs gmed astd : ℚ) :
    0 ≤ volumeAnomalyScore txns a gm gs gmed astd ∧
      volumeAnomalyScore txns a gm gs gmed astd ≤ 100 := by
  unfold volumeAnomalyScore
  dsimp only
  constructor
  · split_ifs <;>
      first
        | norm_num
        | exact le_min (by norm_num) (by norm_num)
  · split_ifs <;>
      first
        | norm_num
        | exact min_le_right _ _

theorem comprehensiveRiskScore_bounds (c v cy rd va : ℚ) (wl : Bool)
    (hc : 0 ≤ c ∧ c ≤ 100) (hv : 0 ≤ v ∧ v ≤ 100) (hcy : 0 ≤ cy ∧ cy ≤ 100)
    (hrd : 0 ≤ rd ∧ rd ≤ 100) (hva : 0 ≤ va ∧ va ≤ 100) :
    0 ≤ comprehensiveRiskScore c v cy rd va wl ∧
      comprehensiveRiskScore c v cy rd va wl ≤ 100 := by
  unfold comprehensiveRiskScore
  cases wl with
  | true => simpa using round2_bounds 0 (le_refl 0) (by norm_num)
  | false =>
    simp only [Bool.false_eq_true, if_false]
    refine round2_bounds _ ?_ ?_
    · have := hc.1; have := hv.1; have := hcy.1; have := hrd.1
      have := hva.1
      positivity
    · nlinarith [hc.2, hv.2, hcy.2, hrd.2, hva.2, hc.1, hv.1, hcy.1,
        hrd.1, hva.1]

theorem nonnegScores_mapUpd (m : ScoreMap) (a : String)
    (f : ScoreEntry → ScoreEntry) (hm : nonnegScores m)
    (hf : ∀ e, 0 ≤ e.score → 0 ≤ (f e).score) :
    nonnegScores (mapUpd m a f) := by
  unfold mapUpd
  split_ifs with h1
  · intro p hp
    rcases List.mem_map.mp hp with ⟨q, hq, rfl⟩
    split_ifs with h2
    · exact hf q.2 (hm q hq)
    · exact hm q hq
  · intro p hp
    rcases List.mem_append.mp hp with h | h
    · exact hm p h
    · obtain rfl := List.mem_singleton.mp h
      exact hf defaultEntry (by norm_num [defaultEntry])

theorem nonnegScores_addCycleScores (cycles : List (List String))
    (m : ScoreMap) (hm : nonnegScores m) :
    nonnegScores (addCycleScores cycles m) := by
  unfold addCycleScores
  refine foldl_invariant nonnegScores _ cycles ?_ m hm
  intro s c _ hs
  refine foldl_invariant nonnegScores _ c ?_ s hs
  intro s' x _ hs'
  exact nonnegScores_mapUpd s' x _ hs' (fun e he => by positivity)

theorem nonnegScores_addFanInScores (fanin : List FanIn) (m : ScoreMap)
    (hm : nonnegScores m) : nonnegScores (addFanInScores fanin m) := by
  unfold addFanInScores
  refine foldl_invariant nonnegScores _ fanin ?_ m hm
  intro s p _ hs
  exact nonnegScores_mapUpd s _ _ hs (fun e he => by positivity)

theorem nonnegScores_addFanOutScores (fanout : List FanOut) (m : ScoreMap)
    (hm : nonnegScores m) : nonnegScores (addFanOutScores fanout m) := by
  unfold addFanOutScores
  refine foldl_invariant nonnegScores _ fanout ?_ m hm
  intro s p _ hs
  exact nonnegScores_mapUpd s _ _ hs (fun e he => by positivity)

theorem nonnegScores_addChainScores (chains : List (List String))
    (m : ScoreMap) (hm : nonnegScores m) :
    nonnegScores (addChainScores chains m) := by
  unfold addChainScores
  refine foldl_invariant nonnegScores _ chains ?_ m hm
  intro s c _ hs
  refine foldl_invariant nonnegScores _ (chainInterior c) ?_ s hs
  intro s' x _ hs'
  exact nonnegScores_mapUpd s' x _ hs' (fun e he => by positivity)

theorem nonnegScores_velocityStep (txns : List Txn) (nodes : List String)
    (m : ScoreMap) (hm : nonnegScores m) :
    nonnegScores (velocityStep txns nodes m) := by
  unfold velocityStep
  refine foldl_invariant nonnegScores _ nodes ?_ m hm
  intro s b _ hs
  dsimp only
  split_ifs with h1 h2
  · refine nonnegScores_mapUpd s b _ hs (fun e he => ?_)
    have hmult : (0 : ℚ) ≤
        min (1 + (rapidCount (List.map Txn.ts (accountTxns txns b)) : ℚ) *
          (1 / 10)) 2 :=
      le_min (by positivity) (by norm_num)
    exact mul_nonneg he hmult
  · exact hs
  · exact hs

theorem nonnegScores_whitelistStep (wl smurf : List String) (m : ScoreMap)
    (hm : nonnegScores m) : nonnegScores (whitelistStep wl smurf m) := by
  unfold whitelistStep
  refine foldl_invariant nonnegScores _ wl ?_ m hm
  intro s b _ hs
  unfold whitelistAccountStep
  split_ifs with h1 h2
  · refine nonnegScores_mapUpd s b _ hs (fun e he => ?_)
    exact le_trans (by norm_num) (le_max_right _ 30)
  · refine nonnegScores_mapUpd s b _ hs (fun e he => by norm_num)
  · exact hs

theorem nonnegScores_spreadStep (txns : List Txn) (nodes wl : List String)
    (m : ScoreMap) (hm : nonnegScores m) :
    nonnegScores (spreadStep txns nodes wl m) := by
  unfold spreadStep
  refine foldl_invariant nonnegScores _ nodes ?_ m hm
  intro s b _ hs
  dsimp only
  split_ifs with h1 h2 h3
  · exact hs
  · refine nonnegScores_mapUpd s b _ hs (fun e he => by positivity)
  · exact hs
  · exact hs

theorem capStep_bounds (m : ScoreMap) (hm : nonnegScores m) :
    ∀ p ∈ capStep m, 0 ≤ p.2.score ∧ p.2.score ≤ 100 := by
  intro p hp
  rcases List.mem_map.mp hp with ⟨q, hq, rfl⟩
  refine ⟨le_min (hm q hq) (by norm_num), min_le_right _ _⟩

/-- C7: every suspicion score in the scorer's output lies in `[0, 100]`,
and every comprehensive risk score produced by the risk intelligence
engine (the rounded, weighted combination of the five factor scores, with
nonnegative centrality inputs from the graph library) lies in
`[0, 100]`. -/
theorem C7_score_bounds :
    (∀ (cycles : List (List String)) (fanin : List FanIn)
      (fanout : List FanOut) (chains : List (List String))
      (wl nodes : List String) (txns : List Txn) (a : String)
      (e : ScoreEntry),
      mapGet (calcSuspicionScores cycles fanin fanout chains wl nodes txns)
          a = some e →
      0 ≤ e.score ∧ e.score ≤ 100) ∧
    (∀ (d b p : ℚ) (txns : List Txn) (a : String)
      (allCycles : List (List String)) (rings : List RingDict)
      (gm gs gmed astd : ℚ) (wlb : Bool), 0 ≤ d → 0 ≤ b → 0 ≤ p →
      0 ≤ comprehensiveRiskScore (centralityScore d b p)
          (velocityScoreRE txns a) (cycleInvolvementScore allCycles a)
          (ringDensityScore txns rings a)
          (volumeAnomalyScore txns a gm gs gmed astd) wlb ∧
      comprehensiveRiskScore (centralityScore d b p)
          (velocityScoreRE txns a) (cycleInvolvementScore allCycles a)
          (ringDensityScore txns rings a)
          (volumeAnomalyScore txns a gm gs gmed astd) wlb ≤ 100) := by
  constructor
  · intro cycles fanin fanout chains wl nodes txns a e hget
    have hnn : nonnegScores (spreadStep txns nodes wl
        (whitelistStep wl (smurfMembers fanin fanout)
          (baseAndVelocityScores cycles fanin fanout chains nodes txns))) := by
      refine nonnegScores_spreadStep _ _ _ _ ?_
      refine nonnegScores_whitelistStep _ _ _ ?_
      unfold baseAndVelocityScores
      refine nonnegScores_velocityStep _ _ _ ?_
      refine nonnegScores_addChainScores _ _ ?_
      refine nonnegScores_addFanOutScores _ _ ?_
      refine nonnegScores_addFanInScores _ _ ?_
      refine nonnegScores_addCycleScores _ _ ?_
      intro p hp
      cases hp
    unfold calcSuspicionScores at hget
    unfold mapGet at hget
    rcases Option.map_eq_some'.mp hget with ⟨q, hq, rfl⟩
    exact capStep_bounds _ hnn q (List.mem_of_find?_eq_some hq)
  · intro d b p txns a allCycles rings gm gs gmed astd wlb hd hb hp
    exact comprehensiveRiskScore_bounds _ _ _ _ _ wlb
      (centralityScore_bounds d b p hd hb hp)
      (velocityScoreRE_bounds txns a)
      (cycleInvolvementScore_bounds allCycles a)
      (ringDensityScore_bounds txns rings a)
      (volumeAnomalyScore_bounds txns a gm gs gmed astd)

/-- Witness for C7 at concrete inputs for both halves. -/
theorem C7_witness :
    (0 ≤ (⟨40, [.cycle_member], [.cycle], .MEDIUM⟩ : ScoreEntry).score ∧
      (⟨40, [.cycle_member], [.cycle], .MEDIUM⟩ : ScoreEntry).score ≤ 100) ∧
    (0 ≤ comprehensiveRiskScore (centralityScore 0 0 0)
        (velocityScoreRE [] "A") (cycleInvolvementScore [] "A")
        (ringDensityScore [] [] "A") (volumeAnomalyScore [] "A" 0 1 0 0)
        false ∧
      comprehensiveRiskScore (centralityScore 0 0 0)
        (velocityScoreRE [] "A") (cycleInvolvementScore [] "A")
        (ringDensityScore [] [] "A") (volumeAnomalyScore [] "A" 0 1 0 0)
        false ≤ 100) := by
  constructor
  · refine C7_score_bounds.1 [["A", "B", "C"]] [] [] [] [] [] [] "A"
      ⟨40, [.cycle_member], [.cycle], .MEDIUM⟩ ?_
    norm_num +decide [calcSuspicionScores, baseAndVelocityScores,
      addCycleScores, addFanInScores, addFanOutScores, addChainScores,
      velocityStep, whitelistStep, spreadStep, capStep, capEntry, mapUpd,
      mapGet, accountTxns, dfSorted, smurfMembers, defaultEntry, rapidCount,
      List.insertionSort, List.orderedInsert]
  · exact C7_score_bounds.2 0 0 0 [] "A" [] [] 0 1 0 0 false (le_refl 0)
      (le_refl 0) (le_refl 0)

theorem keysNodup_mapUpd (m : ScoreMap) (a : String)
    (f : ScoreEntry → ScoreEntry) (hm : keysNodup m) :
    keysNodup (mapUpd m a f) := by
  unfold mapUpd
  split_ifs with h1
  · have : (m.map (fun p => if p.1 = a then (a, f p.2) else p)).map Prod.fst
        = m.map Prod.fst := by
      rw [List.map_map]
      refine List.map_congr_left ?_
      intro p _
      by_cases hpa : p.1 = a <;> simp [hpa]
    unfold keysNodup
    rw [this]
    exact hm
  · unfold keysNodup
    rw [List.map_append]
    simp only [List.map_cons, List.map_nil]
    rw [List.nodup_append]
    refine ⟨hm, List.nodup_singleton _, ?_⟩
    intro x hx
    simp only [List.mem_singleton]
    intro hxa
    subst hxa
    rcases List.mem_map.mp hx with ⟨p, hp, rfl⟩
    exact absurd (List.any_eq_true.mpr ⟨p, hp, by simp⟩) h1

theorem mapGet_self_of_keysNodup (m : ScoreMap) (hm : keysNodup m) :
    ∀ p ∈ m, mapGet m p.1 = some p.2 := by
  induction m with
  | nil => intro p hp; cases hp
  | cons q rest ih =>
    unfold keysNodup at hm
    rw [List.map_cons, List.nodup_cons] at hm
    intro p hp
    rcases List.mem_cons.mp hp with h | h
    · subst h
      unfold mapGet
      rw [List.find?_cons_of_pos _ (by simp)]
      rfl
    · have hk : p.1 ∈ rest.map Prod.fst := List.mem_map_of_mem _ h
      have hqk : ¬ q.1 = p.1 := fun he => hm.1 (he ▸ hk)
      unfold mapGet
      rw [List.find?_cons_of_neg _ (by simpa using hqk)]
      exact ih hm.2 p h

theorem keysNodup_foldl_upd {β : Type} (l : List β)
    (step : ScoreMap → β → ScoreMap)
    (h : ∀ m b, b ∈ l → keysNodup m → keysNodup (step m b)) (m : ScoreMap)
    (hm : keysNodup m) : keysNodup (l.foldl step m) :=
  foldl_invariant keysNodup step l h m hm

theorem keysNodup_addCycleScores (cycles : List (List String)) (m : ScoreMap)
    (hm : keysNodup m) : keysNodup (addCycleScores cycles m) := by
  unfold addCycleScores
  refine foldl_invariant keysNodup _ cycles ?_ m hm
  intro s c _ hs
  refine foldl_invariant keysNodup _ c ?_ s hs
  intro s' x _ hs'
  exact keysNodup_mapUpd s' x _ hs'

theorem keysNodup_addFanInScores (fanin : List FanIn) (m : ScoreMap)
    (hm : keysNodup m) : keysNodup (addFanInScores fanin m) := by
  unfold addFanInScores
  refine foldl_invariant keysNodup _ fanin ?_ m hm
  intro s p _ hs
  exact keysNodup_mapUpd s _ _ hs

theorem keysNodup_addFanOutScores (fanout : List FanOut) (m : ScoreMap)
    (hm : keysNodup m) : keysNodup (addFanOutScores fanout m) := by
  unfold addFanOutScores
  refine foldl_invariant keysNodup _ fanout ?_ m hm
  intro s p _ hs
  exact keysNodup_mapUpd s _ _ hs

theorem keysNodup_addChainScores (chains : List (List String)) (m : ScoreMap)
    (hm : keysNodup m) : keysNodup (addChainScores chains m) := by
  unfold addChainScores
  refine foldl_invariant keysNodup _ chains ?_ m hm
  intro s c _ hs
  refine foldl_invariant keysNodup _ (chainInterior c) ?_ s hs
  intro s' x _ hs'
  exact keysNodup_mapUpd s' x _ hs'

theorem keysNodup_velocityStep (txns : List Txn) (nodes : List String)
    (m : ScoreMap) (hm : keysNodup m) :
    keysNodup (velocityStep txns nodes m) := by
  unfold velocityStep
  refine foldl_invariant keysNodup _ nodes ?_ m hm
  intro s b _ hs
  dsimp only
  split_ifs with h1 h2
  · exact keysNodup_mapUpd s b _ hs
  · exact hs
  · exact hs

theorem keysNodup_whitelistStep (wl smurf : List String) (m : ScoreMap)
    (hm : keysNodup m) : keysNodup (whitelistStep wl smurf m) := by
  unfold whitelistStep
  refine foldl_invariant keysNodup _ wl ?_ m hm
  intro s b _ hs
  unfold whitelistAccountStep
  split_ifs with h1 h2
  · exact keysNodup_mapUpd s b _ hs
  · exact keysNodup_mapUpd s b _ hs
  · exact hs

theorem keysNodup_spreadStep (txns : List Txn) (nodes wl : List String)
    (m : ScoreMap) (hm : keysNodup m) :
    keysNodup (spreadStep txns nodes wl m) := by
  unfold spreadStep
  refine foldl_invariant keysNodup _ nodes ?_ m hm
  intro s b _ hs
  dsimp only
  split_ifs with h1 h2 h3
  · exact hs
  · exact keysNodup_mapUpd s b _ hs
  · exact hs
  · exact hs

theorem keysNodup_capStep (m : ScoreMap) (hm : keysNodup m) :
    keysNodup (capStep m) := by
  unfold keysNodup capStep
  rw [List.map_map]
  exact hm

theorem spreadStep_get_wl (txns : List Txn) (nodes wl : List String)
    (m : ScoreMap) (a : String) (ha : a ∈ wl) :
    mapGet (spreadStep txns nodes wl m) a = mapGet m a := by
  unfold spreadStep
  refine foldl_invariant (fun m' => mapGet m' a = mapGet m a) _ nodes ?_ m rfl
  intro s b _ hs
  dsimp only
  split_ifs with h1 h2 h3
  · exact hs
  · have hne : ¬ (a = b) := fun hab => h1 (hab ▸ ha)
    rw [mapGet_mapUpd, if_neg hne, hs]
  · exact hs
  · exact hs

theorem mapGet_whitelistAccountStep_ne (smurf : List String) (m : ScoreMap)
    (b x : String) (hne : x ≠ b) :
    mapGet (whitelistAccountStep smurf m b) x = mapGet m x := by
  unfold whitelistAccountStep
  split_ifs with h1 h2
  · rw [mapGet_mapUpd, if_neg hne]
  · rw [mapGet_mapUpd, if_neg hne]
  · rfl

theorem mapGet_whitelistAccountStep_self (smurf : List String) (m : ScoreMap)
    (a : String) :
    mapGet (whitelistAccountStep smurf m a) a =
      if a ∈ smurf then
        (mapGet m a).map (fun e =>
          { e with score := max (e.score * (1 / 2)) 30,
                   factors := e.factors ++ [.whitelisted_but_smurfing_member] })
      else if (mapGet m a).isSome then
        some ⟨0, [.whitelisted_legitimate_account], [], .LOW⟩
      else none := by
  unfold whitelistAccountStep
  by_cases h1 : m.any (fun p => p.1 = a) = true
  · rw [if_pos h1]
    have hsome := (mapGet_isSome_iff_any m a).mp h1
    rcases Option.isSome_iff_exists.mp hsome with ⟨e, he⟩
    split_ifs with h2
    · rw [mapGet_mapUpd, if_pos rfl, he]
      simp
    · rw [mapGet_mapUpd, if_pos rfl]
  · rw [if_neg h1]
    have hnone : mapGet m a = none := by
      cases h : mapGet m a with
      | none => rfl
      | some e => exact absurd ((mapGet_isSome_iff_any m a).mpr (by simp [h])) h1
    rw [hnone]
    split_ifs <;> simp_all

/-- Behaviour of the whitelist override at a whitelisted account: a
smurfing member present in the dict is reduced to `max(score·0.5, 30)`
with the extra factor and its patterns kept; any other whitelisted account
present in the dict is zeroed out; an absent account stays absent. -/
theorem whitelistStep_get_mem (wl : List String) (smurf : List String)
    (m : ScoreMap) (a : String) (hnd : wl.Nodup) (ha : a ∈ wl) :
    mapGet (whitelistStep wl smurf m) a =
      if a ∈ smurf then
        (mapGet m a).map (fun e =>
          { e with score := max (e.score * (1 / 2)) 30,
                   factors := e.factors ++ [.whitelisted_but_smurfing_member] })
      else if (mapGet m a).isSome then
        some ⟨0, [.whitelisted_legitimate_account], [], .LOW⟩
      else none := by
  induction wl generalizing m with
  | nil => cases ha
  | cons b rest ih =>
    rw [List.nodup_cons] at hnd
    unfold whitelistStep
    rw [List.foldl_cons]
    rcases List.mem_cons.mp ha with h | h
    · subst h
      have hrest : mapGet (whitelistStep rest smurf
          (whitelistAccountStep smurf m a)) a =
          mapGet (whitelistAccountStep smurf m a) a :=
        whitelistStep_get_ne rest smurf _ a hnd.1
      unfold whitelistStep at hrest
      rw [hrest]
      exact mapGet_whitelistAccountStep_self smurf m a
    · have hab : a ≠ b := fun he => hnd.1 (he ▸ h)
      have := ih (whitelistAccountStep smurf m b) hnd.2 h
      unfold whitelistStep at this
      rw [this, mapGet_whitelistAccountStep_ne smurf m b a hab]

theorem buildSuspiciousAccounts_not_mem_of_zero (m : ScoreMap)
    (ringOf : String → Option String) (a : String) (hm : keysNodup m)
    (hz : ∀ e, mapGet m a = some e → e.score = 0) :
    ∀ r ∈ buildSuspiciousAccounts m ringOf, r.account_id ≠ a := by
  intro r hr hra
  unfold buildSuspiciousAccounts at hr
  have hr' := ((List.perm_insertionSort _ _).mem_iff).mp hr
  rcases List.mem_filterMap.mp hr' with ⟨p, hp, hf⟩
  by_cases h0 : p.2.score = 0
  · rw [if_pos h0] at hf
    cases hf
  · rw [if_neg h0] at hf
    have hacc : r.account_id = p.1 := by
      cases hf
      rfl
    have hpa : p.1 = a := hacc ▸ hra
    have hget : mapGet m a = some p.2 := by
      rw [← hpa]
      exact mapGet_self_of_keysNodup m hm p hp
    exact h0 (hz p.2 hget)

theorem capEntry_zeroed :
    capEntry ⟨0, [.whitelisted_legitimate_account], [], .LOW⟩ =
      ⟨0, [.whitelisted_legitimate_account], [], .LOW⟩ := by
  unfold capEntry
  norm_num

/-- C1 (amended): for a whitelisted account `a` that is not a member of any
detected smurfing pattern, any entry the scorer keeps for `a` is exactly
`{score 0, factors [whitelisted_legitimate_account], patterns ∅, LOW}`,
and `a` never appears in the canonical response's suspicious-accounts list;
for a whitelisted smurfing member, the override step maps its
pre-override entry (when one exists — accounts absent from the score dict
are left absent by the `if account in scores` guard) to
`max(score·0.5, 30)` with the `whitelisted_but_smurfing_member` factor
added and patterns retained. -/
theorem C1_whitelist_override (cycles : List (List String))
    (fanin : List FanIn) (fanout : List FanOut)
    (chains : List (List String)) (wl nodes : List String) (txns : List Txn)
    (ringOf : String → Option String) (a : String) (hnd : wl.Nodup)
    (ha : a ∈ wl) :
    (a ∉ smurfMembers fanin fanout →
      (∀ e, mapGet (calcSuspicionScores cycles fanin fanout chains wl nodes
          txns) a = some e →
        e = ⟨0, [.whitelisted_legitimate_account], [], .LOW⟩) ∧
      (∀ r ∈ buildSuspiciousAccounts
          (calcSuspicionScores cycles fanin fanout chains wl nodes txns)
          ringOf, r.account_id ≠ a)) ∧
    (a ∈ smurfMembers fanin fanout →
      mapGet (whitelistStep wl (smurfMembers fanin fanout)
          (baseAndVelocityScores cycles fanin fanout chains nodes txns)) a =
        (mapGet (baseAndVelocityScores cycles fanin fanout chains nodes
            txns) a).map (fun e =>
          { e with score := max (e.score * (1 / 2)) 30,
                   factors :=
                     e.factors ++ [.whitelisted_but_smurfing_member] })) := by
  have hwlget := whitelistStep_get_mem wl (smurfMembers fanin fanout)
    (baseAndVelocityScores cycles fanin fanout chains nodes txns) a hnd ha
  constructor
  · intro hsm
    rw [if_neg hsm] at hwlget
    have hfinal : ∀ e, mapGet (calcSuspicionScores cycles fanin fanout
        chains wl nodes txns) a = some e →
        e = ⟨0, [.whitelisted_legitimate_account], [], .LOW⟩ := by
      intro e he
      unfold calcSuspicionScores at he
      rw [mapGet_capStep, spreadStep_get_wl txns nodes wl _ a ha, hwlget]
        at he
      split_ifs at he with h1
      · rw [Option.map_some'] at he
        cases he
        exact capEntry_zeroed
      · cases he
    refine ⟨hfinal, ?_⟩
    refine buildSuspiciousAccounts_not_mem_of_zero _ ringOf a ?_ ?_
    · unfold calcSuspicionScores
      refine keysNodup_capStep _ ?_
      refine keysNodup_spreadStep _ _ _ _ ?_
      refine keysNodup_whitelistStep _ _ _ ?_
      unfold baseAndVelocityScores
      refine keysNodup_velocityStep _ _ _ ?_
      refine keysNodup_addChainScores _ _ ?_
      refine keysNodup_addFanOutScores _ _ ?_
      refine keysNodup_addFanInScores _ _ ?_
      refine keysNodup_addCycleScores _ _ ?_
      exact List.nodup_nil
    · intro e he
      rw [hfinal e he]
  · intro hsm
    rw [if_pos hsm] at hwlget
    exact hwlget

/-- Counterexample to C1 as stated: `W` is whitelisted and a smurfing
member (a sender of a detected fan-in pattern), but because it has no base
pattern contribution and no velocity factor it is absent from the score
dict, so the override's `if account in scores` guard skips it: its score
does not become `max(score·0.5, 30) = 30`, no
`whitelisted_but_smurfing_member` factor is added, and the canonical
response contains only the fan-in receiver `H`. -/
theorem C1_counterexample :
    ("W" ∈ smurfMembers
      [⟨"H", ["W", "S1", "S2", "S3", "S4"], 5, 0, 259200, 500⟩] []) ∧
    ("W" ∈ (["W"] : List String)) ∧
    mapGet (calcSuspicionScores []
      [⟨"H", ["W", "S1", "S2", "S3", "S4"], 5, 0, 259200, 500⟩] [] []
      ["W"] ["H", "W", "S1", "S2", "S3", "S4"] []) "W" = none ∧
    (buildSuspiciousAccounts (calcSuspicionScores []
      [⟨"H", ["W", "S1", "S2", "S3", "S4"], 5, 0, 259200, 500⟩] [] []
      ["W"] ["H", "W", "S1", "S2", "S3", "S4"] []) (fun _ => none)).map
      RespAccount.account_id = ["H"] := by
  refine ⟨by decide, by decide, ?_, ?_⟩ <;>
    norm_num +decide [calcSuspicionScores, baseAndVelocityScores,
      addCycleScores, addFanInScores, addFanOutScores, addChainScores,
      velocityStep, whitelistStep, whitelistAccountStep, spreadStep,
      capStep, capEntry, mapUpd, mapGet, accountTxns, dfSorted,
      smurfMembers, defaultEntry, rapidCount, buildSuspiciousAccounts,
      formatPatterns, List.insertionSort, List.orderedInsert,
      List.filterMap]

/-- Witness for C1 (amended) at a concrete input: the whitelisted fan-in
receiver `H` is a smurfing member, and the override step transforms its
entry as described. -/
theorem C1_witness :
    (["H"] : List String).Nodup ∧ ("H" ∈ (["H"] : List String)) ∧
    ("H" ∈ smurfMembers
      [⟨"H", ["S1", "S2", "S3", "S4", "S5"], 5, 0, 259200, 500⟩] []) ∧
    mapGet (whitelistStep ["H"]
        (smurfMembers
          [⟨"H", ["S1", "S2", "S3", "S4", "S5"], 5, 0, 259200, 500⟩] [])
        (baseAndVelocityScores []
          [⟨"H", ["S1", "S2", "S3", "S4", "S5"], 5, 0, 259200, 500⟩] [] []
          ["H", "S1", "S2", "S3", "S4", "S5"] [])) "H" =
      (mapGet (baseAndVelocityScores []
          [⟨"H", ["S1", "S2", "S3", "S4", "S5"], 5, 0, 259200, 500⟩] [] []
          ["H", "S1", "S2", "S3", "S4", "S5"] []) "H").map (fun e =>
        { e with score := max (e.score * (1 / 2)) 30,
                 factors :=
                   e.factors ++ [.whitelisted_but_smurfing_member] }) := by
  refine ⟨by decide, by decide, by decide, ?_⟩
  exact (C1_whitelist_override []
    [⟨"H", ["S1", "S2", "S3", "S4", "S5"], 5, 0, 259200, 500⟩] [] []
    ["H"] ["H", "S1", "S2", "S3", "S4", "S5"] [] (fun _ => none) "H"
    (by decide) (by decide)).2 (by decide)

/- ### Claim C2: ring id assignment order -/

theorem sortRingsByRisk_sorted (rs : List RingDict) :
    List.Sorted
      (fun a b : RingDict => (b.risk_score.getD 0) ≤ (a.risk_score.getD 0))
      (sortRingsByRisk rs) := by
  haveI : IsTotal RingDict
      (fun a b : RingDict =>
        (b.risk_score.getD 0) ≤ (a.risk_score.getD 0)) :=
    ⟨fun a b => le_total _ _⟩
  haveI : IsTrans RingDict
      (fun a b : RingDict =>
        (b.risk_score.getD 0) ≤ (a.risk_score.getD 0)) :=
    ⟨fun _ _ _ h1 h2 => le_trans h2 h1⟩
  exact List.sorted_insertionSort _ rs

theorem sortRingsByRisk_perm (rs : List RingDict) :
    (sortRingsByRisk rs).Perm rs :=
  List.perm_insertionSort _ rs

/-- C2 (amended): in the canonical response, ring ids `RING_001, RING_002,
…` are assigned sequentially over the rings **sorted by risk score
descending** (the order `construct_fraud_rings` hands to the response
builder), not over the raw input order of detected patterns; the sorted
list is a permutation of the one-ring-per-pattern list built in input
order (cycles, then fan-in, then fan-out, then shell chains), and the
`i`-th response ring carries the `i`-th sorted ring's members (sorted) and
pattern type. -/
theorem C2_ring_id_assignment (cycles : List (List String))
    (fanin : List FanIn) (fanout : List FanOut)
    (chains : List (List String)) (m : ScoreMap) :
    (∀ i (h : i <
        (buildFraudRings (constructFraudRings cycles fanin fanout chains
          m)).length),
      ((buildFraudRings (constructFraudRings cycles fanin fanout chains
          m)).get ⟨i, h⟩).ring_id = ringIdStr (i + 1) ∧
      (∀ h' : i < (constructFraudRings cycles fanin fanout chains m).length,
        ((buildFraudRings (constructFraudRings cycles fanin fanout chains
            m)).get ⟨i, h⟩).member_accounts =
          List.insertionSort (fun x y => x ≤ y)
            (((constructFraudRings cycles fanin fanout chains m).get
              ⟨i, h'⟩).member_accounts.getD []))) ∧
    List.Sorted
      (fun a b : RingDict => (b.risk_score.getD 0) ≤ (a.risk_score.getD 0))
      (constructFraudRings cycles fanin fanout chains m) ∧
    (constructFraudRings cycles fanin fanout chains m).Perm
      (rawRings cycles fanin fanout chains m) := by
  refine ⟨?_, sortRingsByRisk_sorted _, sortRingsByRisk_perm _⟩
  intro i h
  unfold buildFraudRings at h ⊢
  constructor
  · rw [List.get_eq_getElem, List.getElem_map, List.getElem_enum]
  · intro h'
    rw [List.get_eq_getElem, List.getElem_map, List.getElem_enum]
    simp [List.get_eq_getElem]

set_option maxHeartbeats 2000000 in
set_option maxRecDepth 8000 in
/-- The suspicion-score map of the C2 counterexample, evaluated. -/
theorem scoresC2_eval :
    calcSuspicionScores cyclesC2 [] [] [] []
        ["A", "B", "C", "D", "E", "F"] txnsC2 =
      [("A", ⟨28, [.cycle_member, .spread_over_time], [.cycle], .LOW⟩),
       ("B", ⟨28, [.cycle_member, .spread_over_time], [.cycle], .LOW⟩),
       ("C", ⟨28, [.cycle_member, .spread_over_time], [.cycle], .LOW⟩),
       ("D", ⟨40, [.cycle_member], [.cycle], .MEDIUM⟩),
       ("E", ⟨40, [.cycle_member], [.cycle], .MEDIUM⟩),
       ("F", ⟨40, [.cycle_member], [.cycle], .MEDIUM⟩)] := by
  have h1 : dfSorted txnsC2 =
      [⟨"T1", "A", "B", 1000, 0⟩, ⟨"T4", "D", "E", 1000, 0⟩,
       ⟨"T5", "E", "F", 1000, 86400⟩, ⟨"T6", "F", "D", 1000, 172800⟩,
       ⟨"T2", "B", "C", 1000, 691200⟩, ⟨"T3", "C", "A", 1000, 1382400⟩] := by
    norm_num +decide [dfSorted, txnsC2, List.insertionSort,
      List.orderedInsert]
  have h2 : addCycleScores cyclesC2 [] =
      [("A", ⟨40, [.cycle_member], [.cycle], .LOW⟩),
       ("B", ⟨40, [.cycle_member], [.cycle], .LOW⟩),
       ("C", ⟨40, [.cycle_member], [.cycle], .LOW⟩),
       ("D", ⟨40, [.cycle_member], [.cycle], .LOW⟩),
       ("E", ⟨40, [.cycle_member], [.cycle], .LOW⟩),
       ("F", ⟨40, [.cycle_member], [.cycle], .LOW⟩)] := by
    norm_num +decide [addCycleScores, cyclesC2, mapUpd, defaultEntry]
  have h3 : velocityStep txnsC2 ["A", "B", "C", "D", "E", "F"]
      (addCycleScores cyclesC2 []) = addCycleScores cyclesC2 [] := by
    rw [h2]
    norm_num +decide [velocityStep, accountTxns, h1, rapidCount, mapUpd,
      List.insertionSort, List.orderedInsert]
  have h4 : spreadStep txnsC2 ["A", "B", "C", "D", "E", "F"] []
      (addCycleScores cyclesC2 []) =
      [("A", ⟨28, [.cycle_member, .spread_over_time], [.cycle], .LOW⟩),
       ("B", ⟨28, [.cycle_member, .spread_over_time], [.cycle], .LOW⟩),
       ("C", ⟨28, [.cycle_member, .spread_over_time], [.cycle], .LOW⟩),
       ("D", ⟨40, [.cycle_member], [.cycle], .LOW⟩),
       ("E", ⟨40, [.cycle_member], [.cycle], .LOW⟩),
       ("F", ⟨40, [.cycle_member], [.cycle], .LOW⟩)] := by
    rw [h2]
    norm_num +decide [spreadStep, accountTxns, h1, mapUpd,
      List.insertionSort, List.orderedInsert]
  have hskip : addChainScores [] (addFanOutScores []
      (addFanInScores [] (addCycleScores cyclesC2 []))) =
      addCycleScores cyclesC2 [] := rfl
  have hwl : whitelistStep [] (smurfMembers [] [])
      (addCycleScores cyclesC2 []) = addCycleScores cyclesC2 [] := rfl
  unfold calcSuspicionScores baseAndVelocityScores
  rw [hskip, h3, hwl, h4]
  norm_num +decide [capStep, capEntry]

set_option maxHeartbeats 2000000 in
set_option maxRecDepth 8000 in
/-- Counterexample to C2 as stated: the two detected cycles have ring risk
averages 28 and 40 in input order; after the risk-descending sort the
response assigns `RING_001` to the **second** detected cycle
`["D","E","F"]`, not to the first detected pattern `["A","B","C"]`, so the
canonical response's ring ids are not assigned in the input order of
detected patterns. -/
theorem C2_counterexample :
    (buildFraudRings (constructFraudRings cyclesC2 [] [] []
      (calcSuspicionScores cyclesC2 [] [] [] []
        ["A", "B", "C", "D", "E", "F"] txnsC2))).map
      (fun r => (r.ring_id, r.member_accounts)) =
      [("RING_001", ["D", "E", "F"]), ("RING_002", ["A", "B", "C"])] ∧
    (["D", "E", "F"] : List String) ≠ ["A", "B", "C"] := by
  refine ⟨?_, by decide⟩
  rw [scoresC2_eval]
  have hraw : rawRings cyclesC2 [] [] []
      [("A", ⟨28, [.cycle_member, .spread_over_time], [.cycle], .LOW⟩),
       ("B", ⟨28, [.cycle_member, .spread_over_time], [.cycle], .LOW⟩),
       ("C", ⟨28, [.cycle_member, .spread_over_time], [.cycle], .LOW⟩),
       ("D", ⟨40, [.cycle_member], [.cycle], .MEDIUM⟩),
       ("E", ⟨40, [.cycle_member], [.cycle], .MEDIUM⟩),
       ("F", ⟨40, [.cycle_member], [.cycle], .MEDIUM⟩)] =
      [{ ring_id := some "RING_001", pattern_type := some "cycle",
         member_accounts := some ["A", "B", "C"], member_count := some 3,
         risk_score := some 28,
         description := some ("Circular fund routing through " ++
           toString (3 : ℕ) ++ " accounts") },
       { ring_id := some "RING_002", pattern_type := some "cycle",
         member_accounts := some ["D", "E", "F"], member_count := some 3,
         risk_score := some 40,
         description := some ("Circular fund routing through " ++
           toString (3 : ℕ) ++ " accounts") }] := by
    norm_num +decide [rawRings, mkRing, avgScore, scoreOf, mapGet,
      ringIdStr, cyclesC2, List.enum, List.enumFrom]
  unfold constructFraudRings
  rw [hraw]
  norm_num +decide [sortRingsByRisk, buildFraudRings, ringIdStr,
    List.insertionSort, List.orderedInsert, List.enum, List.enumFrom,
    String.le_iff_toList_le]

/-- Witness for C2 (amended) at a concrete single-cycle input. -/
theorem C2_witness :
    ((buildFraudRings (constructFraudRings [["A", "B", "C"]] [] [] []
        [])).get ⟨0, by
          simp [buildFraudRings, constructFraudRings, sortRingsByRisk,
            rawRings, List.length_insertionSort]⟩).ring_id = ringIdStr 1 ∧
    List.Sorted
      (fun a b : RingDict => (b.risk_score.getD 0) ≤ (a.risk_score.getD 0))
      (constructFraudRings [["A", "B", "C"]] [] [] [] []) ∧
    (constructFraudRings [["A", "B", "C"]] [] [] [] []).Perm
      (rawRings [["A", "B", "C"]] [] [] [] []) := by
  refine ⟨((C2_ring_id_assignment [["A", "B", "C"]] [] [] [] []).1 0 _).1,
    (C2_ring_id_assignment [["A", "B", "C"]] [] [] [] []).2.1,
    (C2_ring_id_assignment [["A", "B", "C"]] [] [] [] []).2.2⟩

theorem zip_tail_concat (l : List String) (a b : String)
    (h : l.getLast? = some a) :
    (l ++ [b]).zip ((l ++ [b]).tail) = l.zip l.tail ++ [(a, b)] := by
  induction l generalizing a with
  | nil => cases h
  | cons x rest ih =>
    cases rest with
    | nil =>
      simp only [List.getLast?_singleton, Option.some.injEq] at h
      subst h
      simp
    | cons y rest2 =>
      have h' : (y :: rest2).getLast? = some a := by
        rw [← h]
        exact List.getLast?_cons_cons.symm
      have hih := ih a h'
      simp only [List.cons_append, List.tail_cons, List.zip_cons_cons]
        at hih ⊢
      rw [hih]

theorem adjPairs_concat (l : List String) (a b : String)
    (h : l.getLast? = some a) :
    adjPairs (l ++ [b]) = adjPairs l ++ [(a, b)] :=
  zip_tail_concat l a b h

theorem mts_concat (txns : List Txn) (l : List String) (a b : String)
    (h : l.getLast? = some a) :
    mts txns (l ++ [b]) =
      mts txns l ++ [(edgeMinTs txns a b).getD 0] := by
  unfold mts
  rw [adjPairs_concat l a b h, List.map_append]
  rfl


theorem mts_singleton (txns : List Txn) (z : String) :
    mts txns [z] = [] := rfl

theorem bfsExtensions_itemOk (txns : List Txn) (maxDeg : ℕ) (it : BfsItem)
    (hit : itemOk txns it) :
    ∀ it' ∈ bfsExtensions txns maxDeg it, itemOk txns it' := by
  intro it' hmem
  unfold bfsExtensions at hmem
  rcases List.mem_filterMap.mp hmem with ⟨nb, hnb, hf⟩
  by_cases h1 : nb ∈ it.path
  · rw [if_pos h1] at hf
    cases hf
  rw [if_neg h1] at hf
  by_cases h2 : 1 < it.path.length ∧ maxDeg < totalDegree txns nb
  · rw [if_pos h2] at hf
    cases hf
  rw [if_neg h2] at hf
  obtain ⟨hne, hlast, hnd, hedges, hmono, hlts⟩ := hit
  cases hets : edgeMinTs txns it.cur nb with
  | none =>
    rw [hets] at hf
    cases hf
  | some ets =>
    rw [hets] at hf
    simp only at hf
    have hnewpairs := adjPairs_concat it.path it.cur nb hlast
    have hnewmts := mts_concat txns it.path it.cur nb hlast
    rw [hets] at hnewmts
    simp only [Option.getD_some] at hnewmts
    have hnodup : (it.path ++ [nb]).Nodup := by
      rw [List.nodup_append]
      refine ⟨hnd, List.nodup_singleton _, ?_⟩
      intro x hx
      simp only [List.mem_singleton]
      intro hxe
      subst hxe
      exact h1 hx
    have hpeOk : pathEdgesOk txns (it.path ++ [nb]) := by
      intro p hp
      rw [hnewpairs] at hp
      rcases List.mem_append.mp hp with h | h
      · exact hedges p h
      · obtain rfl := List.mem_singleton.mp h
        simp [hets]
    have hlastOk : (mts txns (it.path ++ [nb])).getLast? = some ets := by
      rw [hnewmts]
      exact List.getLast?_concat _
    cases hlt : it.lastTs with
    | none =>
      rw [hlt] at hf hlts
      simp only at hlts
      obtain ⟨z, hz⟩ := List.length_eq_one.mp hlts
      have hmOk : pathMonoOk txns (it.path ++ [nb]) := by
        unfold pathMonoOk
        rw [hnewmts, hz, mts_singleton]
        exact List.chain'_singleton _
      cases hf
      exact ⟨by simp, List.getLast?_concat _, hnodup, hpeOk, hmOk, hlastOk⟩
    | some lt =>
      rw [hlt] at hf hlts
      simp only at hlts hf
      by_cases h3 : ets < lt
      · rw [if_pos h3] at hf
        cases hf
      rw [if_neg h3] at hf
      have hmOk : pathMonoOk txns (it.path ++ [nb]) := by
        unfold pathMonoOk
        rw [hnewmts, List.chain'_append]
        refine ⟨hmono, List.chain'_singleton _, ?_⟩
        intro x hx y hy
        simp only [List.head?_cons, Option.mem_def, Option.some.injEq] at hy
        subst hy
        rw [Option.mem_def, hlts, Option.some.injEq] at hx
        subst hx
        exact le_of_not_lt h3
      cases hf
      exact ⟨by simp, List.getLast?_concat _, hnodup, hpeOk, hmOk, hlastOk⟩

theorem shellBfs_sound (txns : List Txn) (minLen maxDeg : ℕ) :
    ∀ (fuel : ℕ) (queue : List BfsItem) (acc : List (List String)),
      (∀ it ∈ queue, itemOk txns it) →
      (∀ c ∈ acc, chainOk txns minLen maxDeg c) →
      ∀ c ∈ shellBfs txns minLen maxDeg fuel queue acc,
        chainOk txns minLen maxDeg c := by
  intro fuel
  induction fuel with
  | zero =>
    intro queue acc hq hacc c hc
    exact hacc c hc
  | succ n ih =>
    intro queue acc hq hacc c hc
    cases queue with
    | nil => exact hacc c hc
    | cons it rest =>
      simp only [shellBfs] at hc
      by_cases hA : minLen ≤ it.path.length ∧ interiorOk txns maxDeg it.path
      · rw [if_pos hA] at hc
        refine ih rest (acc ++ [it.path])
          (fun i hi => hq i (List.mem_cons_of_mem _ hi)) ?_ c hc
        intro d hd
        rcases List.mem_append.mp hd with h | h
        · exact hacc d h
        · obtain rfl := List.mem_singleton.mp h
          obtain ⟨hne, hlast, hnd, hedges, hmono, _⟩ :=
            hq it (List.mem_cons_self _ _)
          exact ⟨hnd, hA.1, hA.2, hedges, hmono⟩
      rw [if_neg hA] at hc
      by_cases hB : minLen + 2 ≤ it.path.length
      · rw [if_pos hB] at hc
        exact ih rest acc (fun i hi => hq i (List.mem_cons_of_mem _ hi))
          hacc c hc
      rw [if_neg hB] at hc
      refine ih (rest ++ bfsExtensions txns maxDeg it) acc ?_ hacc c hc
      intro i hi
      rcases List.mem_append.mp hi with h | h
      · exact hq i (List.mem_cons_of_mem _ h)
      · exact bfsExtensions_itemOk txns maxDeg it
          (hq it (List.mem_cons_self _ _)) i h

theorem dedupSubchains_subset (l : List (List String)) :
    ∀ c ∈ dedupSubchains l, c ∈ l := by
  intro c hc
  exact List.mem_of_mem_filter hc

/-- C8: every path returned by `detect_shell_chains(min_length, max_degree)`
consists of pairwise-distinct accounts, has at least `min_length` nodes,
every node strictly between the two endpoints has total degree at most
`max_degree`, and the earliest (minimum) timestamps of consecutive edges
along the path are monotonically non-decreasing. -/
theorem C8_shell_chain_postconditions (txns : List Txn)
    (minLen maxDeg fuel : ℕ) :
    ∀ c ∈ detectShellChains txns minLen maxDeg fuel,
      c.Nodup ∧ minLen ≤ c.length ∧ interiorOk txns maxDeg c ∧
        pathMonoOk txns c := by
  intro c hc
  have hmem : c ∈ (nodesOf txns).foldl (fun acc s =>
      if outDegree txns s = 0 then acc
      else shellBfs txns minLen maxDeg fuel [⟨s, [s], none⟩] acc) [] :=
    dedupSubchains_subset _ c hc
  have hall : ∀ d ∈ (nodesOf txns).foldl (fun acc s =>
      if outDegree txns s = 0 then acc
      else shellBfs txns minLen maxDeg fuel [⟨s, [s], none⟩] acc) [],
      chainOk txns minLen maxDeg d := by
    refine foldl_invariant (fun acc => ∀ d ∈ acc, chainOk txns minLen maxDeg d)
      _ _ ?_ [] (by intro d hd; cases hd)
    intro acc s hs hacc
    by_cases hdeg : outDegree txns s = 0
    · rw [if_pos hdeg]
      exact hacc
    rw [if_neg hdeg]
    refine shellBfs_sound txns minLen maxDeg fuel [⟨s, [s], none⟩] acc ?_ hacc
    intro it hit
    obtain rfl := List.mem_singleton.mp hit
    refine ⟨by simp, rfl, List.nodup_singleton _, ?_, ?_, rfl⟩
    · intro p hp
      cases hp
    · unfold pathMonoOk
      rw [mts_singleton]
      exact List.chain'_nil
  obtain ⟨hnd, hlen, hint, _, hmono⟩ := hall c hmem
  exact ⟨hnd, hlen, hint, hmono⟩

theorem C8_witness :
    ["X", "a", "b"] ∈ detectShellChains txnsC8 3 3 20 ∧
      (["X", "a", "b"] : List String).Nodup ∧
      3 ≤ (["X", "a", "b"] : List String).length ∧
      interiorOk txnsC8 3 ["X", "a", "b"] ∧
      pathMonoOk txnsC8 ["X", "a", "b"] := by
  have h : (["X", "a", "b"] : List String) ∈ detectShellChains txnsC8 3 3 20 :=
    by decide
  have h2 := C8_shell_chain_postconditions txnsC8 3 3 20 ["X", "a", "b"] h
  exact ⟨h, h2⟩

theorem takeWhile_ts_eq_filter (e : ℤ) :
    ∀ s : List FanTxn,
      List.Pairwise (fun a b : FanTxn => a.ts ≤ b.ts) s →
      s.takeWhile (fun x => decide (x.ts ≤ e)) =
        s.filter (fun x => decide (x.ts ≤ e)) := by
  intro s
  induction s with
  | nil => intro _; rfl
  | cons t rest ih =>
    intro hs
    rw [List.pairwise_cons] at hs
    by_cases h : t.ts ≤ e
    · rw [List.takeWhile_cons_of_pos (by simpa using h),
        List.filter_cons_of_pos (by simpa using h), ih hs.2]
    · rw [List.takeWhile_cons_of_neg (by simpa using h),
        List.filter_cons_of_neg (by simpa using h)]
      symm
      rw [List.filter_eq_nil_iff]
      intro x hx
      simp only [decide_eq_true_eq]
      intro hxe
      exact h (le_trans (hs.1 x hx) hxe)

theorem winTxns_eq_winFilter (w : ℤ) (s : List FanTxn)
    (hs : List.Pairwise (fun a b : FanTxn => a.ts ≤ b.ts) s) :
    winTxns w s = winFilter w s := by
  cases s with
  | nil => rfl
  | cons t rest =>
    simp only [winTxns, winFilter]
    exact takeWhile_ts_eq_filter (t.ts + w) (t :: rest) hs

theorem dfSorted_sorted_ts (txns : List Txn) :
    List.Pairwise (fun a b : Txn => a.ts ≤ b.ts) (dfSorted txns) := by
  haveI : IsTotal Txn (fun a b : Txn => a.ts ≤ b.ts) :=
    ⟨fun a b => le_total _ _⟩
  haveI : IsTrans Txn (fun a b : Txn => a.ts ≤ b.ts) :=
    ⟨fun _ _ _ h1 h2 => le_trans h1 h2⟩
  exact List.sorted_insertionSort _ txns

theorem groupTxnsBy_sorted (key other : Txn → String) (txns : List Txn) :
    ∀ g ∈ groupTxnsBy key other txns,
      List.Pairwise (fun a b : FanTxn => a.ts ≤ b.ts) g.2 := by
  intro g hg
  unfold groupTxnsBy at hg
  dsimp only at hg
  rcases List.mem_map.mp hg with ⟨k, hk, rfl⟩
  dsimp only
  rw [List.pairwise_map]
  exact List.Pairwise.sublist (List.filter_sublist _) (dfSorted_sorted_ts txns)

theorem groupTxnsBy_keys (key other : Txn → String) (txns : List Txn) :
    (groupTxnsBy key other txns).map Prod.fst =
      ((dfSorted txns).map key).dedup := by
  unfold groupTxnsBy
  dsimp only
  rw [List.map_map]
  exact List.map_id _

theorem map_filterMap_sublist {α β γ : Type} (f : α → Option β)
    (p : β → γ) (q : α → γ)
    (h : ∀ a b, f a = some b → p b = q a) :
    ∀ l : List α, ((l.filterMap f).map p).Sublist (l.map q) := by
  intro l
  induction l with
  | nil => simp
  | cons a rest ih =>
    rw [List.filterMap_cons, List.map_cons]
    cases hf : f a with
    | none => exact ih.cons _
    | some b =>
      rw [List.map_cons, h a b hf]
      exact ih.cons₂ _

theorem detectFanIn_receivers_sublist (txns : List Txn) (T : ℕ) (w : ℤ) :
    ((detectFanIn txns T w).map FanIn.receiver).Sublist
      ((groupTxnsBy Txn.receiver_id Txn.sender_id txns).map Prod.fst) := by
  unfold detectFanIn
  refine map_filterMap_sublist _ _ _ ?_ _
  intro g p hf
  by_cases hlen : g.2.length < T
  · rw [if_pos hlen] at hf
    cases hf
  rw [if_neg hlen] at hf
  rcases Option.map_eq_some'.mp hf with ⟨r, _, rfl⟩
  rfl

theorem detectFanIn_receivers_nodup (txns : List Txn) (T : ℕ) (w : ℤ) :
    ((detectFanIn txns T w).map FanIn.receiver).Nodup := by
  refine List.Nodup.sublist (detectFanIn_receivers_sublist txns T w) ?_
  rw [groupTxnsBy_keys]
  exact List.nodup_dedup _

theorem fanScan_eq_some (T : ℕ) (w : ℤ) :
    ∀ (l : List FanTxn) (r : List String × ℕ × ℤ × ℤ × ℚ),
      fanScan T w l = some r →
      ∃ i < l.length,
        T ≤ ((winTxns w (l.drop i)).map FanTxn.party).dedup.length ∧
        (∀ j < i,
          ¬ T ≤ ((winTxns w (l.drop j)).map FanTxn.party).dedup.length) ∧
        ∃ t, (l.drop i).head? = some t ∧
          r = (((winTxns w (l.drop i)).map FanTxn.party).dedup,
               ((winTxns w (l.drop i)).map FanTxn.party).dedup.length,
               t.ts, t.ts + w,
               ((winTxns w (l.drop i)).map FanTxn.amount).sum) := by
  intro l
  induction l with
  | nil =>
    intro r h
    cases h
  | cons t rest ih =>
    intro r h
    rw [fanScan] at h
    by_cases hq : T ≤ (((t :: rest).takeWhile
        (fun x => decide (x.ts ≤ t.ts + w))).map FanTxn.party).dedup.length
    · rw [if_pos hq] at h
      have hr := Option.some.inj h
      subst hr
      refine ⟨0, by simp, ?_, ?_, t, rfl, ?_⟩
      · simpa [winTxns] using hq
      · intro j hj
        cases hj
      · simp [winTxns]
    · rw [if_neg hq] at h
      obtain ⟨i, hi, hqi, hprev, t', ht', hr⟩ := ih r h
      refine ⟨i + 1, by simpa using Nat.succ_lt_succ hi, ?_, ?_, t', ?_, ?_⟩
      · simpa [List.drop_succ_cons] using hqi
      · intro j hj
        cases j with
        | zero =>
          simpa [winTxns] using hq
        | succ k =>
          have hk := hprev k (Nat.lt_of_succ_lt_succ hj)
          simpa [List.drop_succ_cons] using hk
      · simpa [List.drop_succ_cons] using ht'
      · simpa [List.drop_succ_cons] using hr

/-- C4 (amended): the fan-in detector emits at most one pattern per receiver
(the emitted receivers are pairwise distinct), and every emitted pattern
comes from a receiver whose time-sorted incoming list has at least
`threshold` transactions, at the earliest window position whose window
contains at least `threshold` distinct senders; the pattern records exactly
the distinct senders of the window's transactions and their summed amount,
with `window_end = window_start + window`.  The window is CLOSED at both
ends: it holds the remaining transactions with timestamp in
`[t, t + window]`, so a transaction at exactly `t + window` IS part of the
window (the scan loop breaks only strictly beyond `window_end`), contrary
to the claimed half-open window. -/
theorem C4_fanin_emission (txns : List Txn) (T : ℕ) (w : ℤ) (p : FanIn)
    (hp : p ∈ detectFanIn txns T w) :
    ((detectFanIn txns T w).map FanIn.receiver).Nodup ∧
    ∃ g ∈ groupTxnsBy Txn.receiver_id Txn.sender_id txns,
      g.1 = p.receiver ∧ T ≤ g.2.length ∧
      ∃ i < g.2.length,
        T ≤ ((winFilter w (g.2.drop i)).map FanTxn.party).dedup.length ∧
        (∀ j < i,
          ¬ T ≤ ((winFilter w (g.2.drop j)).map FanTxn.party).dedup.length) ∧
        ∃ t, (g.2.drop i).head? = some t ∧
          p.window_start = t.ts ∧
          p.window_end = t.ts + w ∧
          p.senders = ((winFilter w (g.2.drop i)).map FanTxn.party).dedup ∧
          p.count = p.senders.length ∧
          p.total_amount =
            ((winFilter w (g.2.drop i)).map FanTxn.amount).sum := by
  refine ⟨detectFanIn_receivers_nodup txns T w, ?_⟩
  unfold detectFanIn at hp
  rcases List.mem_filterMap.mp hp with ⟨g, hg, hfg⟩
  by_cases hlen : g.2.length < T
  · rw [if_pos hlen] at hfg
    cases hfg
  rw [if_neg hlen] at hfg
  rcases Option.map_eq_some'.mp hfg with ⟨r, hscan, hpr⟩
  obtain ⟨i, hi, hqi, hprev, t, ht, hr⟩ := fanScan_eq_some T w g.2 r hscan
  have hsorted := groupTxnsBy_sorted Txn.receiver_id Txn.sender_id txns g hg
  have hdropEq : ∀ j : ℕ, winTxns w (g.2.drop j) = winFilter w (g.2.drop j) :=
    fun j => winTxns_eq_winFilter w _
      (List.Pairwise.sublist (List.drop_sublist _ _) hsorted)
  refine ⟨g, hg, ?_, not_lt.mp hlen, i, hi, ?_, ?_, t, ht, ?_⟩
  · rw [← hpr]
  · rw [← hdropEq i]
    exact hqi
  · intro j hj
    rw [← hdropEq j]
    exact hprev j hj
  · subst hpr
    subst hr
    refine ⟨rfl, rfl, ?_, rfl, ?_⟩
    · rw [← hdropEq i]
    · rw [← hdropEq i]

theorem detectFanIn_txnsC4 :
    detectFanIn txnsC4 2 3600 = [⟨"H", ["A", "B"], 2, 0, 3600, 200⟩] := by
  norm_num +decide [detectFanIn, groupTxnsBy, dfSorted, fanScan, txnsC4,
    List.filterMap, List.insertionSort, List.orderedInsert, List.takeWhile,
    List.dedup]

/-- C4 counterexample, refuting the half-open window: with threshold 2 and a
1-hour window, receiver `H` gets transactions from `A` at `t = 0` and from
`B` at `t = 3600` — exactly `window_start + window`.  Under the claimed
half-open window `[t, t + 3600)` no window position would hold two distinct
senders and no pattern would be emitted; the code emits the pattern with
both senders, because its scan breaks only strictly beyond `window_end`. -/
theorem C4_counterexample :
    (detectSmurfing txnsC4 (some 2) 1).1 =
      [⟨"H", ["A", "B"], 2, 0, 3600, 200⟩] ∧
    ∃ t ∈ txnsC4, t.sender_id = "B" ∧ t.ts = (0 : ℤ) + 3600 := by
  constructor
  · have h1 : (detectSmurfing txnsC4 (some 2) 1).1 =
        detectFanIn txnsC4 2 (3600 * 1) := rfl
    rw [h1, show (3600 : ℤ) * 1 = 3600 from by norm_num, detectFanIn_txnsC4]
  · exact ⟨⟨"T2", "B", "H", 100, 3600⟩, by decide, rfl, by norm_num⟩

/-- C4 witness: the theorem applied to the emitted pattern of the concrete
two-transaction input. -/
theorem C4_witness :
    (⟨"H", ["A", "B"], 2, 0, 3600, 200⟩ : FanIn) ∈
        detectFanIn txnsC4 2 3600 ∧
      (((detectFanIn txnsC4 2 3600).map FanIn.receiver).Nodup ∧
      ∃ g ∈ groupTxnsBy Txn.receiver_id Txn.sender_id txnsC4,
        g.1 = (⟨"H", ["A", "B"], 2, 0, 3600, 200⟩ : FanIn).receiver ∧
        2 ≤ g.2.length ∧
        ∃ i < g.2.length,
          2 ≤ ((winFilter 3600 (g.2.drop i)).map FanTxn.party).dedup.length ∧
          (∀ j < i,
            ¬ 2 ≤ ((winFilter 3600 (g.2.drop j)).map
              FanTxn.party).dedup.length) ∧
          ∃ t, (g.2.drop i).head? = some t ∧
            (⟨"H", ["A", "B"], 2, 0, 3600, 200⟩ : FanIn).window_start = t.ts ∧
            (⟨"H", ["A", "B"], 2, 0, 3600, 200⟩ : FanIn).window_end =
              t.ts + 3600 ∧
            (⟨"H", ["A", "B"], 2, 0, 3600, 200⟩ : FanIn).senders =
              ((winFilter 3600 (g.2.drop i)).map FanTxn.party).dedup ∧
            (⟨"H", ["A", "B"], 2, 0, 3600, 200⟩ : FanIn).count =
              (⟨"H", ["A", "B"], 2, 0, 3600, 200⟩ : FanIn).senders.length ∧
            (⟨"H", ["A", "B"], 2, 0, 3600, 200⟩ : FanIn).total_amount =
              ((winFilter 3600 (g.2.drop i)).map FanTxn.amount).sum) := by
  have hp : (⟨"H", ["A", "B"], 2, 0, 3600, 200⟩ : FanIn) ∈
      detectFanIn txnsC4 2 3600 := by
    rw [detectFanIn_txnsC4]
    exact List.mem_singleton.mpr rfl
  exact ⟨hp, C4_fanin_emission txnsC4 2 3600 _ hp⟩
